import Mathlib

/-!
# Verification of the queue_flex discrete-event simulator's dispatch layer

This file gives a shallow embedding, in Lean 4, of the parts of the
`queue_flex` simulator relevant to its dispatch policies, bucketed index,
worker-core instability detection, latency store and Zipf key hashing, and
proves (or refutes) the stated properties of those components.

Source files embedded:
* `components/dispatch_policies/base_policies.py` (`find_shortest_q`)
* `components/dispatch_policies/key_based_policies.py` (`EREWDispatchPolicy`)
* `components/dispatch_policies/JBSQ.py` (`JBSQDispatchPolicy`,
  `JBSCREWDispatchPolicy`, `DynJBSCREWDispatchPolicy`)
* `components/bucketed_index.py` (`BucketedIndex`, `AsyncIndexUpdater`)
* `components/rpc_core.py` (`AbstractCore` stability tracking)
* `components/latency_store.py` (`LatencyStoreWithBreakdown`)
* `components/zipf_gen.py` (`ZipfKeyGenerator` key hashing)
* `components/comm_channel.py` (`CommChannel`) together with the
  balancer/worker loop of `components/load_balancer.py` / `rpc_core.py`,
  as a small-step transition system.
-/

/-- A point-RPC request as in `components/requests.py` (`RPCRequest`):
`num` is the monotonic id, `h` the precomputed hash (`__hash__` returns
`self.h`), `isWrite` the write flag.  Timestamps and CC counters are not
needed by the properties proved here. -/
structure Req where
  num : Nat
  h : Nat
  isWrite : Bool
deriving DecidableEq, Repr

/-- Python `hash(req)`, which dispatch policies use: `RPCRequest.__hash__`
returns the stored field `self.h`. -/
def hashReq (r : Req) : Nat := r.h

/-- Replace the element at index `i` by `f` applied to it; out-of-range
indices leave the list unchanged (the Python code never indexes out of
range in the executions modelled here). -/
def modifyAt (f : α → α) : Nat → List α → List α
  | _, [] => []
  | 0, x :: xs => f x :: xs
  | n + 1, x :: xs => x :: modifyAt f n xs

/-! ## `find_shortest_q` (`dispatch_policies/base_policies.py`)

The Python loop walks queue indexes in order starting from 0 (the
policies verified here always call it with the default `starting_q=0`
and empty `filter_list`), keeping the first strictly smallest length.
`smallest` starts at `1000000000` and `shortest_q` at 0. -/
/-- The loop body of `find_shortest_q`: `i` is the index of the head of
`ls`, `best` the current `(shortest_q, smallest)` pair. -/
def find_shortest_go (i : Nat) (best : Nat × Nat) : List Nat → Nat × Nat
  | [] => best
  | l :: rest =>
    if l < best.2 then find_shortest_go (i + 1) (i, l) rest
    else find_shortest_go (i + 1) best rest

/-- `find_shortest_q(qs)` over the per-queue tracking deques: returns the
pair `(shortest_q, smallest)`. -/
def find_shortest_q (qs : List (List Req)) : Nat × Nat :=
  find_shortest_go 0 (0, 1000000000) (qs.map List.length)

/-! ## EREW dispatch (`dispatch_policies/key_based_policies.py`)

`KeyDispatchPolicy.__init__` stores `num_queues`, `num_buckets` and one
tracking deque per queue; `EREWDispatchPolicy.select` hashes the request
to a bucket, maps the bucket to a queue, records the request at the left
of that queue's tracking deque and returns the queue index. -/
structure KeyPolicyState where
  num_queues : Nat
  num_buckets : Nat
  queue_length_tracking : List (List Req)
deriving Repr, DecidableEq

/-- `EREWDispatchPolicy.select`.  Deques are lists with `appendleft` as
cons; returns the chosen index and the updated policy state. -/
def EREW_select (s : KeyPolicyState) (req : Req) : Nat × KeyPolicyState :=
  let bucket := hashReq req % s.num_buckets
  let final_idx := bucket % s.num_queues
  (final_idx,
    { s with queue_length_tracking :=
        modifyAt (fun q => req :: q) final_idx s.queue_length_tracking })

/-! ## JBSQ dispatch (`dispatch_policies/JBSQ.py`) -/
structure JBSQState where
  depth_limit : Nat
  num_queues : Nat
  queue_length_tracking : List (List Req)
deriving Repr, DecidableEq

/-- `JBSQDispatchPolicy.__init__(env, qs, bound)`: raises
`ValueError("Cannot have JBSQ(0)")` when `bound == 0`; otherwise all
tracking deques start empty.  `num_queue_objects` stands for `len(qs)`. -/
def JBSQDispatchPolicy_init (num_queue_objects : Nat) (bound : Nat) :
    Except String JBSQState :=
  if bound = 0 then Except.error "Cannot have JBSQ(0)"
  else Except.ok
    { depth_limit := bound
      num_queues := num_queue_objects
      queue_length_tracking := List.replicate num_queue_objects [] }

/-- `JBSQDispatchPolicy.select`. -/
def JBSQ_select (s : JBSQState) (req : Req) : Int × JBSQState :=
  let p := find_shortest_q s.queue_length_tracking
  if p.2 < s.depth_limit then
    (Int.ofNat p.1,
      { s with queue_length_tracking :=
          modifyAt (fun q => req :: q) p.1 s.queue_length_tracking })
  else (-1, s)

/-- `JBSQDispatchPolicy.func_executed(c_id, f_type)`: pops the right end
(the oldest entry) of queue `c_id`'s tracking deque.  The event-trigger
part is modelled in the system step relation below. -/
def JBSQ_func_executed (s : JBSQState) (c_id : Nat) : JBSQState :=
  { s with queue_length_tracking :=
      modifyAt List.dropLast c_id s.queue_length_tracking }

/-- `JBSQDispatchPolicy.no_queue_available`. -/
def JBSQ_no_queue_available (s : JBSQState) : Bool :=
  s.depth_limit ≤ (find_shortest_q s.queue_length_tracking).2

/-! ## Counter / OrderedDict helpers (Python `collections`) -/
/-- `Counter[k] += 1`: a missing key counts as 0 and is inserted at the
end, an existing key is bumped in place. -/
def counterBump (c : List (Nat × Nat)) (k : Nat) : List (Nat × Nat) :=
  if c.any (fun p => p.1 == k) then
    c.map (fun p => if p.1 == k then (p.1, p.2 + 1) else p)
  else c ++ [(k, 1)]

/-- `OrderedDict` lookup `m[k]` / `k in m`. -/
def odLookup (m : List (Nat × β)) (k : Nat) : Option β :=
  (m.find? (fun p => p.1 == k)).map (fun p => p.2)

/-- `OrderedDict` assignment `m[k] = v`: update in place when the key
exists (keeping its position), otherwise append at the end. -/
def odSet (m : List (Nat × β)) (k : Nat) (v : β) : List (Nat × β) :=
  if m.any (fun p => p.1 == k) then
    m.map (fun p => if p.1 == k then (k, v) else p)
  else m ++ [(k, v)]

/-- In-place mutation of the value stored under key `k` (Python mutates
the `BucketMappingMetadata` object, leaving its dict position fixed). -/
def odModify (m : List (Nat × β)) (k : Nat) (f : β → β) : List (Nat × β) :=
  m.map (fun p => if p.1 == k then (p.1, f p.2) else p)

/-- `del m[k]`: removes the (unique) entry with key `k`. -/
def odDelete (m : List (Nat × β)) (k : Nat) : List (Nat × β) :=
  m.eraseP (fun p => p.1 == k)

/-! ## JBSQ-bounded CREW (`JBSCREWDispatchPolicy`) -/
structure JBSCREWState where
  depth_limit : Nat
  num_queues : Nat
  queue_length_tracking : List (List Req)
  num_hash_buckets : Nat
  bucket_load_counter : List (Nat × Nat)
deriving Repr, DecidableEq

/-- `JBSCREWDispatchPolicy.__init__`: delegates the depth check to
`JBSQDispatchPolicy.__init__`. -/
def JBSCREWDispatchPolicy_init (num_queue_objects bound_depth num_hash_buckets : Nat) :
    Except String JBSCREWState := do
  let base ← JBSQDispatchPolicy_init num_queue_objects bound_depth
  return { depth_limit := base.depth_limit
           num_queues := base.num_queues
           queue_length_tracking := base.queue_length_tracking
           num_hash_buckets := num_hash_buckets
           bucket_load_counter := [] }

/-- `JBSCREWDispatchPolicy.update_bucket_load`. -/
def JBSCREW_update_bucket_load (s : JBSCREWState) (req : Req) : JBSCREWState :=
  { s with bucket_load_counter :=
      counterBump s.bucket_load_counter (hashReq req % s.num_hash_buckets) }

/-- `JBSCREWDispatchPolicy.select`:  writes go unconditionally to
`(hash(req) % num_hash_buckets) % num_queues`; reads go to the shortest
queue when its length is under the depth limit, otherwise `-1`. -/
def JBSCREW_select (s : JBSCREWState) (req : Req) : Int × JBSCREWState :=
  if req.isWrite then
    let bucket := hashReq req % s.num_hash_buckets
    let qdx := bucket % s.num_queues
    let s1 := { s with
      queue_length_tracking :=
        modifyAt (fun q => req :: q) qdx s.queue_length_tracking }
    (Int.ofNat qdx, JBSCREW_update_bucket_load s1 req)
  else
    let p := find_shortest_q s.queue_length_tracking
    if p.2 < s.depth_limit then
      let s1 := { s with
        queue_length_tracking :=
          modifyAt (fun q => req :: q) p.1 s.queue_length_tracking }
      (Int.ofNat p.1, JBSCREW_update_bucket_load s1 req)
    else (-1, s)

/-! ## Dynamic-CREW (`DynJBSCREWDispatchPolicy`) -/
/-- `BucketMappingMetadata`: owning core and outstanding-write count
(a Python int, so modelled as `Int`). -/
structure BucketMappingMetadata where
  core : Nat
  wrs_outstanding : Int
deriving Repr, DecidableEq

/-- `ExclDispatchDecisionEnum`. -/
inductive ExclDispatchDecisionEnum where
  | LB_READ
  | LIN_READ
  | NEW_EXCL_WRITE
  | FOLLOWING_EXCL_WRITE
deriving Repr, DecidableEq

structure DynState where
  depth_limit : Nat
  num_queues : Nat
  queue_length_tracking : List (List Req)
  num_hash_buckets : Nat
  max_buckets_tracking : Nat
  bucket_mappings : List (Nat × BucketMappingMetadata)
  balanced_writes : Nat
  excl_writes : Nat
  balanced_reads : Nat
  linearized_reads : Nat
  bucket_load_counter : List (Nat × Nat)
deriving Repr, DecidableEq

/-- `DynJBSCREWDispatchPolicy.__init__`. -/
def DynJBSCREWDispatchPolicy_init
    (num_queue_objects bound_depth num_hash_buckets max_buckets_tracking : Nat) :
    Except String DynState := do
  let base ← JBSQDispatchPolicy_init num_queue_objects bound_depth
  return { depth_limit := base.depth_limit
           num_queues := base.num_queues
           queue_length_tracking := base.queue_length_tracking
           num_hash_buckets := num_hash_buckets
           max_buckets_tracking := max_buckets_tracking
           bucket_mappings := []
           balanced_writes := 0
           excl_writes := 0
           balanced_reads := 0
           linearized_reads := 0
           bucket_load_counter := [] }

/-- `DynJBSCREWDispatchPolicy.update_bucket_load`. -/
def Dyn_update_bucket_load (s : DynState) (req : Req) : DynState :=
  { s with bucket_load_counter :=
      counterBump s.bucket_load_counter (hashReq req % s.num_hash_buckets) }

/-- `DynJBSCREWDispatchPolicy.update_q_len_tracking`. -/
def Dyn_update_q_len_tracking (s : DynState) (qdx : Nat) (req : Req) : DynState :=
  { s with queue_length_tracking :=
      modifyAt (fun q => req :: q) qdx s.queue_length_tracking }

/-- `DynJBSCREWDispatchPolicy.add_to_excl_bucket`: when the map is at
capacity, pop the oldest insertion (`popitem(last=False)`), then map
`bucket` to `(excl_q, 1)`. -/
def Dyn_add_to_excl_bucket (s : DynState) (bucket excl_q : Nat) : DynState :=
  let m := if s.max_buckets_tracking ≤ s.bucket_mappings.length
    then s.bucket_mappings.tail else s.bucket_mappings
  { s with bucket_mappings := odSet m bucket ⟨excl_q, 1⟩ }

/-- `DynJBSCREWDispatchPolicy.exclusive_access_outstanding`. -/
def Dyn_exclusive_access_outstanding (s : DynState) (req : Req) : Bool :=
  (odLookup s.bucket_mappings (hashReq req % s.num_hash_buckets)).isSome

/-- `DynJBSCREWDispatchPolicy.update_metadata`. -/
def Dyn_update_metadata (s : DynState) (req : Req)
    (decision : ExclDispatchDecisionEnum) (queue_chosen bucket : Nat) : DynState :=
  let s1 := match decision with
    | .LB_READ => { s with balanced_reads := s.balanced_reads + 1 }
    | .LIN_READ => { s with linearized_reads := s.linearized_reads + 1 }
    | .FOLLOWING_EXCL_WRITE =>
        { s with
          bucket_mappings := odModify s.bucket_mappings bucket
            (fun m => { m with wrs_outstanding := m.wrs_outstanding + 1 })
          excl_writes := s.excl_writes + 1 }
    | .NEW_EXCL_WRITE =>
        let s2 := Dyn_add_to_excl_bucket s bucket queue_chosen
        { s2 with balanced_writes := s2.balanced_writes + 1 }
  Dyn_update_bucket_load (Dyn_update_q_len_tracking s1 queue_chosen req) req

/-- `DynJBSCREWDispatchPolicy.select`: the dynamic-CREW decision tree.
The `exclusive_access_outstanding` test is the `isSome` of the lookup
this `match` performs. -/
def DynJBSCREW_select (s : DynState) (req : Req) : Int × DynState :=
  let bucket := hashReq req % s.num_hash_buckets
  match odLookup s.bucket_mappings bucket with
  | some meta =>
    if req.isWrite then
      (Int.ofNat meta.core,
        Dyn_update_metadata s req .FOLLOWING_EXCL_WRITE meta.core bucket)
    else
      let p := find_shortest_q s.queue_length_tracking
      if p.2 < s.depth_limit then
        (Int.ofNat p.1, Dyn_update_metadata s req .LB_READ p.1 bucket)
      else (-1, s)
  | none =>
    let p := find_shortest_q s.queue_length_tracking
    if p.2 < s.depth_limit then
      if req.isWrite then
        (Int.ofNat p.1, Dyn_update_metadata s req .NEW_EXCL_WRITE p.1 bucket)
      else
        (Int.ofNat p.1, Dyn_update_metadata s req .LB_READ p.1 bucket)
    else (-1, s)

/-- `DynJBSCREWDispatchPolicy.write_req_finished`: asserts the bucket is
mapped and mapped to `excl_q`, decrements the outstanding count, and
deletes the mapping when the count reaches zero.  Assertion failures
surface as `Except.error`. -/
def Dyn_write_req_finished (s : DynState) (bucket excl_q : Nat) :
    Except String (Int × DynState) :=
  match odLookup s.bucket_mappings bucket with
  | none =>
      Except.error "Bucket not in exclusive mappings despite having a write req finished for it!"
  | some m =>
      if m.core ≠ excl_q then
        Except.error "Bucket was currently assigned excl to another queue"
      else
        let new_outstanding := m.wrs_outstanding - 1
        let s1 := { s with
          bucket_mappings := odModify s.bucket_mappings bucket
            (fun mm => { mm with wrs_outstanding := mm.wrs_outstanding - 1 }) }
        if new_outstanding = 0 then
          Except.ok (new_outstanding,
            { s1 with bucket_mappings := odDelete s1.bucket_mappings bucket })
        else Except.ok (new_outstanding, s1)

/-! ## Worker-core stability tracking (`components/rpc_core.py`) -/
/-- `AbstractCore.kill_sim_threshold`. -/
def kill_sim_threshold : Nat := 1000000

/-- `AbstractCore.putSTime`: append the new service time, then, when the
list has reached length 5, delete the element at index 0. -/
def putSTime (lastFiveSTimes : List Nat) (time : Nat) : List Nat :=
  let l := lastFiveSTimes ++ [time]
  if 5 ≤ l.length then l.tail else l

/-- `AbstractCore.checkTimeOverThreshold`. -/
def checkTimeOverThreshold (item : Nat) : Bool :=
  kill_sim_threshold ≤ item

/-- `AbstractCore.isSimulationUnstable`: `all` of the stored service
times exceed the threshold. -/
def isSimulationUnstable (lastFiveSTimes : List Nat) : Bool :=
  lastFiveSTimes.all checkTimeOverThreshold

/-! ## Latency store (`components/latency_store.py`) -/
/-- An HDR histogram handle as constructed by the store:
`HdrHistogram(lowest, highest, significant_figures)` plus the recorded
values. -/
structure HdrHistogram where
  lowest_trackable_value : Nat
  highest_trackable_value : Nat
  significant_figures : Nat
  recorded : List Nat
deriving Repr, DecidableEq

def HdrHistogram.record_value (hg : HdrHistogram) (v : Nat) : HdrHistogram :=
  { hg with recorded := hg.recorded ++ [v] }

structure LatencyStoreWithBreakdown where
  store_objects : Bool
  lat_store : HdrHistogram
  read_lat_store : HdrHistogram
  write_lat_store : HdrHistogram
  raw_req_objects : List (Nat × Req)
deriving Repr, DecidableEq

/-- `LatencyStoreWithBreakdown.__init__`: three histograms, each
`HdrHistogram(1, 100000, 3)`. -/
def mkLatencyStoreWithBreakdown (store_objects : Bool) : LatencyStoreWithBreakdown :=
  { store_objects := store_objects
    lat_store := ⟨1, 100000, 3, []⟩
    read_lat_store := ⟨1, 100000, 3, []⟩
    write_lat_store := ⟨1, 100000, 3, []⟩
    raw_req_objects := [] }

/-- `LatencyStoreWithBreakdown.record_value(req, lat)`. -/
def LatencyStore_record_value (s : LatencyStoreWithBreakdown) (req : Req)
    (lat : Nat) : LatencyStoreWithBreakdown :=
  let s1 := { s with lat_store := s.lat_store.record_value lat }
  let s2 :=
    if req.isWrite then
      { s1 with write_lat_store := s1.write_lat_store.record_value lat }
    else
      { s1 with read_lat_store := s1.read_lat_store.record_value lat }
  if s2.store_objects then
    { s2 with raw_req_objects := odSet s2.raw_req_objects req.num req }
  else s2

/-! ## Bucketed index (`components/bucketed_index.py`)

SimPy events created by `get_event_for_increment` are registered both in
the per-bucket waiter list (by id) and in a global registry recording
how many times each was succeeded; succeeding an event calls its one-shot
`succeed`, modelled as bumping that counter. -/
structure SimEventRec where
  eid : Nat
  succeedCount : Nat
deriving Repr, DecidableEq

structure BucketedIndex where
  num_buckets : Nat
  buckets : List Nat
  event_waitlist : List (List Nat)
  events : List SimEventRec
deriving Repr, DecidableEq

/-- `BucketedIndex.__init__(num_buckets)`. -/
def mkBucketedIndex (num_buckets : Nat) : BucketedIndex :=
  { num_buckets := num_buckets
    buckets := List.replicate num_buckets 0
    event_waitlist := List.replicate num_buckets []
    events := [] }

/-- `BucketedIndex.get_index_version`. -/
def BucketedIndex.get_index_version (b : BucketedIndex) (bucket_num : Nat) : Nat :=
  b.buckets.getD bucket_num 0

/-- `BucketedIndex.inc_index_version` (with the default increment of 1). -/
def BucketedIndex.inc_index_version (b : BucketedIndex) (bucket_num : Nat) :
    BucketedIndex :=
  { b with buckets := modifyAt (fun v => v + 1) bucket_num b.buckets }

/-- `BucketedIndex.get_event_for_increment`: create a fresh event and
append it to the bucket's waiter list. -/
def BucketedIndex.get_event_for_increment (b : BucketedIndex) (bucket_num eid : Nat) :
    BucketedIndex :=
  { b with
    events := b.events ++ [⟨eid, 0⟩]
    event_waitlist := modifyAt (fun l => l ++ [eid]) bucket_num b.event_waitlist }

/-- `e.succeed(...)` for the event with id `i`. -/
def fireEvent (evs : List SimEventRec) (i : Nat) : List SimEventRec :=
  evs.map (fun e => if e.eid = i then { e with succeedCount := e.succeedCount + 1 } else e)

/-- `BucketedIndex.succeed_event_for_bucket`: succeed every event in the
bucket's waiter list, then clear the list. -/
def BucketedIndex.succeed_event_for_bucket (b : BucketedIndex) (bucket_num : Nat) :
    BucketedIndex :=
  { b with
    events := (b.event_waitlist.getD bucket_num []).foldl fireEvent b.events
    event_waitlist := modifyAt (fun _ => []) bucket_num b.event_waitlist }

/-- The body of `AsyncIndexUpdater.run` after its timeout fires:
increment the bucket's version, then succeed all waiters for it. -/
def asyncIndexUpdater_fire (b : BucketedIndex) (idx_to_update : Nat) : BucketedIndex :=
  (b.inc_index_version idx_to_update).succeed_event_for_bucket idx_to_update

/-! ## Zipf key hashing (`components/zipf_gen.py`)

`hash_int_to_key` computes `hashlib.sha256(str(rank).encode())`, takes
`hexdigest()[-16:-8]` and parses it as hex.  The SHA-256 digest is 32
bytes = 64 hex characters, so `[-16:-8]` is hex characters 48..55,
i.e. digest bytes 24..27, which is the 7th big-endian 32-bit word of
the digest.  SHA-256 itself (FIPS 180-4) is embedded below so the
computation is fully executable. -/
/-- Truncate to a 32-bit word. -/
def w32 (x : Nat) : Nat := x % 4294967296

/-- 32-bit rotate right. -/
def rotr (n x : Nat) : Nat := w32 ((x >>> n) ||| (x <<< (32 - n)))

def shaCh (e f g : Nat) : Nat := (e &&& f) ^^^ ((e ^^^ 4294967295) &&& g)

def shaMaj (a b c : Nat) : Nat := (a &&& b) ^^^ (a &&& c) ^^^ (b &&& c)

def shaBigSigma0 (x : Nat) : Nat := rotr 2 x ^^^ rotr 13 x ^^^ rotr 22 x

def shaBigSigma1 (x : Nat) : Nat := rotr 6 x ^^^ rotr 11 x ^^^ rotr 25 x

def shaSmallSigma0 (x : Nat) : Nat := rotr 7 x ^^^ rotr 18 x ^^^ (x >>> 3)

def shaSmallSigma1 (x : Nat) : Nat := rotr 17 x ^^^ rotr 19 x ^^^ (x >>> 10)

/-- The 64 SHA-256 round constants. -/
def shaK : List Nat :=
  [1116352408, 1899447441, 3049323471, 3921009573, 961987163, 1508970993,
   2453635748, 2870763221, 3624381080, 310598401, 607225278, 1426881987,
   1925078388, 2162078206, 2614888103, 3248222580, 3835390401, 4022224774,
   264347078, 604807628, 770255983, 1249150122, 1555081692, 1996064986,
   2554220882, 2821834349, 2952996808, 3210313671, 3336571891, 3584528711,
   113926993, 338241895, 666307205, 773529912, 1294757372, 1396182291,
   1695183700, 1986661051, 2177026350, 2456956037, 2730485921, 2820302411,
   3259730800, 3345764771, 3516065817, 3600352804, 4094571909, 275423344,
   430227734, 506948616, 659060556, 883997877, 958139571, 1322822218,
   1537002063, 1747873779, 1955562222, 2024104815, 2227730452, 2361852424,
   2428436474, 2756734187, 3204031479, 3329325298]

/-- The SHA-256 initial hash value. -/
def shaH0 : List Nat :=
  [1779033703, 3144134277, 1013904242, 2773480762,
   1359893119, 2600822924, 528734635, 1541459225]

/-- Message-schedule extension: repeatedly append
`σ1(w[i-2]) + w[i-7] + σ0(w[i-15]) + w[i-16] mod 2^32`. -/
def shaExtendAux : Nat → List Nat → List Nat
  | 0, w => w
  | n + 1, w =>
    let i := w.length
    let nw := w32 (shaSmallSigma1 (w.getD (i - 2) 0) + w.getD (i - 7) 0 +
      shaSmallSigma0 (w.getD (i - 15) 0) + w.getD (i - 16) 0)
    shaExtendAux n (w ++ [nw])

structure ShaState where
  a : Nat
  b : Nat
  c : Nat
  d : Nat
  e : Nat
  f : Nat
  g : Nat
  hh : Nat
deriving Repr, DecidableEq

/-- One compression round with round constant `k` and schedule word `w`. -/
def shaRound (st : ShaState) (kw : Nat × Nat) : ShaState :=
  let t1 := w32 (st.hh + shaBigSigma1 st.e + shaCh st.e st.f st.g + kw.1 + kw.2)
  let t2 := w32 (shaBigSigma0 st.a + shaMaj st.a st.b st.c)
  { a := w32 (t1 + t2), b := st.a, c := st.b, d := st.c,
    e := w32 (st.d + t1), f := st.e, g := st.f, hh := st.g }

/-- Compress one 16-word block into the running 8-word hash. -/
def shaCompressBlock (h : List Nat) (block : List Nat) : List Nat :=
  let w := shaExtendAux 48 block
  let st0 : ShaState :=
    { a := h.getD 0 0, b := h.getD 1 0, c := h.getD 2 0, d := h.getD 3 0,
      e := h.getD 4 0, f := h.getD 5 0, g := h.getD 6 0, hh := h.getD 7 0 }
  let st := (shaK.zip w).foldl shaRound st0
  [w32 (h.getD 0 0 + st.a), w32 (h.getD 1 0 + st.b), w32 (h.getD 2 0 + st.c),
   w32 (h.getD 3 0 + st.d), w32 (h.getD 4 0 + st.e), w32 (h.getD 5 0 + st.f),
   w32 (h.getD 6 0 + st.g), w32 (h.getD 7 0 + st.hh)]

/-- Big-endian 8-byte encoding of a (< 2^64) number. -/
def be64 (n : Nat) : List Nat :=
  [(n >>> 56) % 256, (n >>> 48) % 256, (n >>> 40) % 256, (n >>> 32) % 256,
   (n >>> 24) % 256, (n >>> 16) % 256, (n >>> 8) % 256, n % 256]

/-- SHA-256 padding: append `128`, zero bytes to 56 mod 64, then the
bit length big-endian. -/
def padMessage (msg : List Nat) : List Nat :=
  let zeros := (64 + 55 - msg.length % 64) % 64
  msg ++ [128] ++ List.replicate zeros 0 ++ be64 (8 * msg.length)

/-- Group bytes into big-endian 32-bit words. -/
def bytesToWords : List Nat → List Nat
  | b0 :: b1 :: b2 :: b3 :: rest =>
    (b0 * 16777216 + b1 * 65536 + b2 * 256 + b3) :: bytesToWords rest
  | _ => []

/-- Process the 16-word blocks of `ws` (the fuel bounds the number of
blocks). -/
def shaProcess : Nat → List Nat → List Nat → List Nat
  | 0, h, _ => h
  | fuel + 1, h, ws =>
    match ws with
    | [] => h
    | _ => shaProcess fuel (shaCompressBlock h (ws.take 16)) (ws.drop 16)

/-- SHA-256 of a byte string, as the list of 8 big-endian 32-bit digest
words. -/
def sha256Words (msg : List Nat) : List Nat :=
  let ws := bytesToWords (padMessage msg)
  shaProcess ws.length shaH0 ws

/-- ASCII decimal digits of `n` (`str(n)` encoded in UTF-8), via fuel. -/
def digitsAux : Nat → Nat → List Nat
  | 0, _ => []
  | fuel + 1, n =>
    if n < 10 then [n + 48]
    else digitsAux fuel (n / 10) ++ [n % 10 + 48]

/-- The bytes of `str(n)` for a natural number `n`. -/
def strBytesOfNat (n : Nat) : List Nat := digitsAux (n + 1) n

/-- `ZipfKeyGenerator.hash_int_to_key(integer_rank)`:
`int(sha256(str(rank)).hexdigest()[-16:-8], 16)`, i.e. digest word 6. -/
def hash_int_to_key (integer_rank : Nat) : Nat :=
  (sha256Words (strBytesOfNat integer_rank)).getD 6 0

/-- The value of the *low eight bytes* of the SHA-256 digest of
`str(rank)` — `int(hexdigest[-16:], 16)` — i.e. what an "8-byte hash
from the SHA-256 low bytes" would be. -/
def sha256_low8_of_rank (integer_rank : Nat) : Nat :=
  let ws := sha256Words (strBytesOfNat integer_rank)
  ws.getD 6 0 * 4294967296 + ws.getD 7 0

/-- The key-hash table of `ZipfKeyGenerator`: `make_strings` precomputes
`key_strings[i] = hash_int_to_key(i)` for every rank `i < N`. -/
structure ZipfKeyGenerator where
  size : Nat
  key_strings : List Nat
deriving Repr, DecidableEq

/-- The part of `ZipfKeyGenerator.__init__` that builds `key_strings`
(the harmonic/pdf/cdf arrays do not affect key hashing). -/
def mkZipfKeyGenerator (num_items : Nat) : ZipfKeyGenerator :=
  { size := num_items
    key_strings := (List.range num_items).map hash_int_to_key }

/-- `ZipfKeyGenerator.hash_for_rank(k)`: a pure lookup in the
precomputed table. -/
def hash_for_rank (z : ZipfKeyGenerator) (k : Nat) : Nat :=
  z.key_strings.getD k 0

/-! ## The timed dispatch pipeline (`comm_channel.py`, `load_balancer.py`,
`rpc_core.py`) as a small-step transition system

A `CommChannel` wraps a simpy `Store` with a fixed delay: `put(v)`
spawns a `latency` process that sleeps `delay` and only then does
`store.put(v)`.  While that process sleeps the value is *in flight*: it
is in no `items` list (`num_items_enqueued` does not count it).

The system couples a JBSQ dispatch policy (the balancer's
`select_and_dispatch` / `update_pulls` paths), one private dispatch
channel and one `uServCore`-style worker per queue, and the shared pull
channel carrying `PullFeedbackRequest(core_id, req)` messages back to
the balancer. -/
structure CommCh (α : Type) where
  delay : Nat
  inFlight : List (α × Nat)
  items : List α
deriving Repr, DecidableEq

/-- `CommChannel.put(value)` at virtual time `now`: schedule the value
to reach the store `delay` time units later. -/
def CommCh.put (c : CommCh α) (v : α) (now : Nat) : CommCh α :=
  { c with inFlight := c.inFlight ++ [(v, now + c.delay)] }

/-- `CommChannel.num_items_enqueued`: only the store's items count. -/
def CommCh.num_items_enqueued (c : CommCh α) : Nat := c.items.length

/-- A worker core (`uServCore`): either blocked on `in_q.get()` or
processing a request until its service completes. -/
inductive CoreStatus where
  | idle
  | busy (r : Req) (finish : Nat)
deriving Repr, DecidableEq

/-- 1 when a request is currently in service. -/
def inServiceCount : CoreStatus → Nat
  | .idle => 0
  | .busy _ _ => 1

structure Sys where
  now : Nat
  policy : JBSQState
  dispChans : List (CommCh Req)
  cores : List CoreStatus
  pull : CommCh (Nat × Req)
deriving Repr, DecidableEq

/-- The simulation's initial configuration: `num_cores` idle workers,
empty channels of latency `chan_lat`, a JBSQ policy of depth `depth`
with empty tracking deques. -/
def initSys (num_cores depth chan_lat : Nat) : Sys :=
  { now := 0
    policy := { depth_limit := depth
                num_queues := num_cores
                queue_length_tracking := List.replicate num_cores [] }
    dispChans := List.replicate num_cores ⟨chan_lat, [], []⟩
    cores := List.replicate num_cores .idle
    pull := ⟨chan_lat, [], []⟩ }

/-- One scheduler step of the coupled system.  Each constructor is one
atomic segment of a simpy process between yields:

* `advance`: virtual time moves forward.
* `dispatch`: the balancer takes a generated request, `select` appends
  it to the chosen tracking deque, and `the_queue.put(req)` starts the
  channel's latency process (`LoadBalancer.select_and_dispatch`).
* `deliver`: a dispatch channel's latency process fires, moving the
  request into the channel's store.
* `coreGet`: an idle worker's pending `in_q.get()` completes with the
  oldest stored request; the worker then sleeps one service time.
* `coreFinish`: the worker's service timeout fires; it puts
  `PullFeedbackRequest(id, req)` on the pull channel and loops.
* `pullDeliver`: the pull channel's latency process fires.
* `pullProcess`: the balancer drains one pull message,
  `update_pulls` → `func_executed` pops that core's tracking deque. -/
inductive Step : Sys → Sys → Prop where
  | advance (s : Sys) (t : Nat) (h : s.now ≤ t) :
      Step s { s with now := t }
  | dispatch (s : Sys) (req : Req)
      (hok : (find_shortest_q s.policy.queue_length_tracking).2 < s.policy.depth_limit) :
      Step s { s with
        policy := (JBSQ_select s.policy req).2
        dispChans := modifyAt (fun c => c.put req s.now)
          (find_shortest_q s.policy.queue_length_tracking).1 s.dispChans }
  | deliver (s : Sys) (i : Nat) (r : Req) (t : Nat) (rest : List (Req × Nat))
      (hch : (s.dispChans.getD i ⟨0, [], []⟩).inFlight = (r, t) :: rest)
      (ht : t ≤ s.now) (hi : i < s.dispChans.length) :
      Step s { s with
        dispChans := modifyAt
          (fun c => { c with inFlight := rest, items := c.items ++ [r] }) i s.dispChans }
  | coreGet (s : Sys) (i : Nat) (r : Req) (rest : List Req) (stime : Nat)
      (hcore : s.cores.getD i .idle = .idle)
      (hitems : (s.dispChans.getD i ⟨0, [], []⟩).items = r :: rest)
      (hi : i < s.dispChans.length) (hic : i < s.cores.length) :
      Step s { s with
        dispChans := modifyAt (fun c => { c with items := rest }) i s.dispChans
        cores := modifyAt (fun _ => .busy r (s.now + stime)) i s.cores }
  | coreFinish (s : Sys) (i : Nat) (r : Req) (f : Nat)
      (hcore : s.cores.getD i .idle = .busy r f) (hf : f ≤ s.now)
      (hic : i < s.cores.length) :
      Step s { s with
        cores := modifyAt (fun _ => .idle) i s.cores
        pull := s.pull.put (i, r) s.now }
  | pullDeliver (s : Sys) (m : Nat × Req) (t : Nat) (rest : List ((Nat × Req) × Nat))
      (hch : s.pull.inFlight = (m, t) :: rest) (ht : t ≤ s.now) :
      Step s { s with
        pull := { s.pull with inFlight := rest, items := s.pull.items ++ [m] } }
  | pullProcess (s : Sys) (i : Nat) (r : Req) (rest : List (Nat × Req))
      (hitems : s.pull.items = (i, r) :: rest)
      (htrack : s.policy.queue_length_tracking.getD i [] ≠ []) :
      Step s { s with
        pull := { s.pull with items := rest }
        policy := JBSQ_func_executed s.policy i }

/-- States reachable from a fresh simulation. -/
def SysReachable (num_cores depth chan_lat : Nat) (s : Sys) : Prop :=
  Relation.ReflTransGen Step (initSys num_cores depth chan_lat) s

/-- Pull messages (in flight or stored) whose completing core is `i`. -/
def pullCountFor (s : Sys) (i : Nat) : Nat :=
  (s.pull.inFlight.filter (fun p => p.1.1 == i)).length +
    (s.pull.items.filter (fun p => p.1 == i)).length

/-- The claim's reading of tracking conservation: at every instant, each
core's tracking-deque length equals the number of items waiting in its
private dispatch channel plus the (0 or 1) request in service. -/
def claimTrackingEq (s : Sys) : Prop :=
  ∀ i, i < s.policy.num_queues →
    (s.policy.queue_length_tracking.getD i []).length =
      (s.dispChans.getD i ⟨0, [], []⟩).num_items_enqueued +
        inServiceCount (s.cores.getD i .idle)

instance (s : Sys) : Decidable (claimTrackingEq s) := by
  unfold claimTrackingEq
  exact Nat.decidableBallLT _ _

/-- The conservation law that actually holds: each tracking deque counts
every request dispatched to that core and not yet drained from the pull
channel — in-flight on the dispatch channel, stored in it, in service,
or acknowledged but still inside the pull channel. -/
def sysConservation (s : Sys) : Prop :=
  ∀ i, i < s.policy.num_queues →
    (s.policy.queue_length_tracking.getD i []).length =
      (s.dispChans.getD i ⟨0, [], []⟩).inFlight.length +
        (s.dispChans.getD i ⟨0, [], []⟩).num_items_enqueued +
        inServiceCount (s.cores.getD i .idle) +
        pullCountFor s i

/-- Structural well-formedness: the parallel lists all have one entry
per queue. -/
def sysWf (s : Sys) : Prop :=
  s.policy.queue_length_tracking.length = s.policy.num_queues ∧
    s.dispChans.length = s.policy.num_queues ∧
    s.cores.length = s.policy.num_queues

/-- The request of the C2 counterexample trace. -/
def c2Req : Req := { num := 0, h := 0, isWrite := false }

/-- One core, depth 1, channel latency 30 (the `channel_lat` used by the
seed scenarios). -/
def c2Start : Sys := initSys 1 1 30

/-- The state immediately after the balancer dispatches `c2Req` at time
0: the tracking deque counts it, but it is still in flight on the
channel and no request is in service. -/
def c2AfterDispatch : Sys :=
  { now := 0
    policy := { depth_limit := 1
                num_queues := 1
                queue_length_tracking := [[c2Req]] }
    dispChans := [⟨30, [(c2Req, 30)], []⟩]
    cores := [.idle]
    pull := ⟨30, [], []⟩ }

/-- A concrete dynamic-CREW policy state: bucket 1 owned by core 0 with
2 outstanding writes, two empty queues, depth bound 2. -/
def c1State : DynState :=
  { depth_limit := 2, num_queues := 2, queue_length_tracking := [[], []],
    num_hash_buckets := 4, max_buckets_tracking := 8,
    bucket_mappings := [(1, ⟨0, 2⟩)],
    balanced_writes := 0, excl_writes := 0, balanced_reads := 0,
    linearized_reads := 0, bucket_load_counter := [] }

/-- Pull messages always name an existing core. -/
def pullIdsOk (s : Sys) : Prop :=
  (∀ p ∈ s.pull.inFlight, p.1.1 < s.policy.num_queues) ∧
  (∀ p ∈ s.pull.items, p.1 < s.policy.num_queues)

/-- The inductive invariant for the dispatch pipeline. -/
def SysInv (s : Sys) : Prop :=
  sysWf s ∧ pullIdsOk s ∧ sysConservation s

theorem modifyAt_length (f : α → α) (i : Nat) (l : List α) :
    (modifyAt f i l).length = l.length := by
  induction l generalizing i with
  | nil => cases i <;> rfl
  | cons x xs ih =>
    cases i with
    | zero => rfl
    | succ n => simp [modifyAt, ih]

theorem getD_modifyAt_self (f : α → α) (i : Nat) (l : List α) (d : α)
    (h : i < l.length) :
    (modifyAt f i l).getD i d = f (l.getD i d) := by
  induction l generalizing i with
  | nil => simp at h
  | cons x xs ih =>
    cases i with
    | zero => rfl
    | succ n =>
      simp only [modifyAt, List.getD_cons_succ]
      exact ih n (by simpa using h)

theorem getD_modifyAt_ne (f : α → α) (i j : Nat) (l : List α) (d : α)
    (h : i ≠ j) :
    (modifyAt f i l).getD j d = l.getD j d := by
  induction l generalizing i j with
  | nil => cases i <;> rfl
  | cons x xs ih =>
    cases i with
    | zero =>
      cases j with
      | zero => exact absurd rfl h
      | succ m => rfl
    | succ n =>
      cases j with
      | zero => rfl
      | succ m =>
        simp only [modifyAt, List.getD_cons_succ]
        exact ih n m (fun hh => h (by simpa using hh))

theorem find_shortest_go_snd (ls : List Nat) :
    ∀ (i : Nat) (best : Nat × Nat),
      (find_shortest_go i best ls).2 = ls.foldl min best.2 := by
  induction ls with
  | nil => intro i best; rfl
  | cons l rest ih =>
    intro i best
    simp only [find_shortest_go, List.foldl_cons]
    by_cases h : l < best.2
    · rw [if_pos h, ih]
      have : min best.2 l = l := by omega
      rw [this]
    · rw [if_neg h, ih]
      have : min best.2 l = best.2 := by omega
      rw [this]

theorem foldl_min_le_init (ls : List Nat) : ∀ a : Nat, ls.foldl min a ≤ a := by
  induction ls with
  | nil => intro a; simp
  | cons l rest ih =>
    intro a
    simp only [List.foldl_cons]
    exact le_trans (ih (min a l)) (min_le_left a l)

theorem foldl_min_le_mem (ls : List Nat) :
    ∀ (a x : Nat), x ∈ ls → ls.foldl min a ≤ x := by
  induction ls with
  | nil => intro a x hx; simp at hx
  | cons l rest ih =>
    intro a x hx
    simp only [List.foldl_cons]
    rcases List.mem_cons.mp hx with h | h
    · subst h
      exact le_trans (foldl_min_le_init rest (min a x)) (min_le_right a x)
    · exact ih (min a l) x h

/-- Either the loop never improved on `best` (and returns it unchanged),
or its result is an in-range index whose length equals the returned
minimum. -/
theorem find_shortest_go_attains (ls : List Nat) :
    ∀ (i : Nat) (best : Nat × Nat),
      find_shortest_go i best ls = best ∨
      ∃ j, j < ls.length ∧ (find_shortest_go i best ls).1 = i + j ∧
        ls.getD j 0 = (find_shortest_go i best ls).2 := by
  induction ls with
  | nil => intro i best; exact Or.inl rfl
  | cons l rest ih =>
    intro i best
    simp only [find_shortest_go]
    by_cases h : l < best.2
    · rw [if_pos h]
      rcases ih (i + 1) (i, l) with h1 | h1
      · refine Or.inr ⟨0, by simp, ?_, ?_⟩
        · rw [h1]; simp
        · rw [h1]; rfl
      · obtain ⟨j, hj, hfst, hget⟩ := h1
        refine Or.inr ⟨j + 1, by simpa using Nat.succ_lt_succ hj, ?_, ?_⟩
        · rw [hfst]; omega
        · simpa using hget
    · rw [if_neg h]
      rcases ih (i + 1) best with h1 | h1
      · exact Or.inl h1
      · obtain ⟨j, hj, hfst, hget⟩ := h1
        refine Or.inr ⟨j + 1, by simpa using Nat.succ_lt_succ hj, ?_, ?_⟩
        · rw [hfst]; omega
        · simpa using hget

theorem find_shortest_q_snd (qs : List (List Req)) :
    (find_shortest_q qs).2 = (qs.map List.length).foldl min 1000000000 := by
  exact find_shortest_go_snd (qs.map List.length) 0 (0, 1000000000)

/-- The returned minimum is a lower bound for every tracked length. -/
theorem find_shortest_q_le (qs : List (List Req)) (q : List Req) (hq : q ∈ qs) :
    (find_shortest_q qs).2 ≤ q.length := by
  rw [find_shortest_q_snd]
  exact foldl_min_le_mem _ _ _ (List.mem_map_of_mem List.length hq)

/-- When some queue's length is under the initial sentinel, the returned
index is in range and its queue attains the returned minimum. -/
theorem find_shortest_q_attains (qs : List (List Req))
    (hne : qs ≠ []) (hbound : ∀ q ∈ qs, q.length < 1000000000) :
    (find_shortest_q qs).1 < qs.length ∧
    (qs.getD (find_shortest_q qs).1 []).length = (find_shortest_q qs).2 := by
  have hlt : (find_shortest_q qs).2 < 1000000000 := by
    obtain ⟨q, rest, rfl⟩ := List.exists_cons_of_ne_nil hne
    calc (find_shortest_q (q :: rest)).2 ≤ q.length :=
          find_shortest_q_le _ q (List.mem_cons_self q rest)
      _ < 1000000000 := hbound q (List.mem_cons_self q rest)
  rcases find_shortest_go_attains (qs.map List.length) 0 (0, 1000000000) with h | h
  · exfalso
    have : (find_shortest_q qs).2 = 1000000000 := by
      show (find_shortest_go 0 (0, 1000000000) (qs.map List.length)).2 = _
      rw [h]
    omega
  · obtain ⟨j, hj, hfst, hget⟩ := h
    have hjlen : j < qs.length := by simpa using hj
    have hfst2 : (find_shortest_q qs).1 = j := by simpa using hfst
    constructor
    · rw [hfst2]; exact hjlen
    · rw [hfst2]
      have : (qs.map List.length).getD j 0 = (qs.getD j []).length := by
        rw [List.getD_eq_getElem?_getD, List.getD_eq_getElem?_getD,
          List.getElem?_map]
        rcases List.getElem?_eq_some_iff.mpr
          ⟨hjlen, rfl⟩ with h2
        cases hq : qs[j]? with
        | none => simp [List.getElem?_eq_none_iff] at hq; omega
        | some v => simp [hq]
      rw [← this]
      exact hget

theorem fireFold (ids : List Nat) :
    ∀ evs : List SimEventRec,
      ids.foldl fireEvent evs =
        evs.map (fun e => { e with succeedCount := e.succeedCount + ids.count e.eid }) := by
  induction ids with
  | nil =>
    intro evs
    simp only [List.foldl_nil, List.count_nil]
    exact (List.map_id' evs).symm ▸ by
      induction evs with
      | nil => rfl
      | cons e es ih => simp [ih]
  | cons i rest ih =>
    intro evs
    simp only [List.foldl_cons, ih]
    unfold fireEvent
    rw [List.map_map]
    apply List.map_congr_left
    intro e _
    by_cases h : e.eid = i
    · simp only [Function.comp, if_pos h]
      have : (i :: rest).count e.eid = rest.count e.eid + 1 := by
        rw [List.count_cons]
        simp [h]
      simp [this]
      omega
    · simp only [Function.comp, if_neg h]
      have : (i :: rest).count e.eid = rest.count e.eid := by
        rw [List.count_cons]
        simp [Ne.symm h]
      simp [this]

/-! ## Ordered-dictionary lemmas -/
theorem odLookup_cons_pos (p : Nat × β) (rest : List (Nat × β)) (k : Nat)
    (h : p.1 = k) : odLookup (p :: rest) k = some p.2 := by
  unfold odLookup
  rw [List.find?_cons_of_pos _ (by simpa using h)]
  rfl

theorem odLookup_cons_neg (p : Nat × β) (rest : List (Nat × β)) (k : Nat)
    (h : ¬p.1 = k) : odLookup (p :: rest) k = odLookup rest k := by
  unfold odLookup
  rw [List.find?_cons_of_neg _ (by simpa using h)]

theorem odLookup_odModify_self (m : List (Nat × β)) (k : Nat) (f : β → β) (v : β)
    (h : odLookup m k = some v) :
    odLookup (odModify m k f) k = some (f v) := by
  induction m with
  | nil => simp [odLookup] at h
  | cons p rest ih =>
    by_cases hk : p.1 = k
    · rw [odLookup_cons_pos p rest k hk] at h
      simp only [odModify, List.map_cons, if_pos (show (p.1 == k) = true by simpa using hk)]
      rw [odLookup_cons_pos (p.1, f p.2) _ k hk]
      simp only [Option.some_inj] at h
      rw [h]
    · rw [odLookup_cons_neg p rest k hk] at h
      simp only [odModify, List.map_cons,
        if_neg (show ¬(p.1 == k) = true by simpa using hk)]
      rw [odLookup_cons_neg p _ k hk]
      exact ih h

theorem odLookup_odModify_ne (m : List (Nat × β)) (k k' : Nat) (f : β → β)
    (h : k ≠ k') :
    odLookup (odModify m k f) k' = odLookup m k' := by
  induction m with
  | nil => rfl
  | cons p rest ih =>
    by_cases hk : p.1 = k
    · simp only [odModify, List.map_cons, if_pos (show (p.1 == k) = true by simpa using hk)]
      rw [odLookup_cons_neg _ _ _ (by rw [hk] at *; exact h),
        odLookup_cons_neg p rest k' (by rw [hk]; exact h)]
      exact ih
    · simp only [odModify, List.map_cons,
        if_neg (show ¬(p.1 == k) = true by simpa using hk)]
      by_cases hk2 : p.1 = k'
      · rw [odLookup_cons_pos _ _ _ hk2, odLookup_cons_pos p rest k' hk2]
      · rw [odLookup_cons_neg _ _ _ hk2, odLookup_cons_neg p rest k' hk2]
        exact ih

theorem odLookup_eq_none (m : List (Nat × β)) (k : Nat)
    (h : ∀ p ∈ m, p.1 ≠ k) : odLookup m k = none := by
  induction m with
  | nil => rfl
  | cons p rest ih =>
    rw [odLookup_cons_neg p rest k (h p (List.mem_cons_self p rest))]
    exact ih (fun q hq => h q (List.mem_cons_of_mem p hq))

theorem odLookup_odSet_ne (m : List (Nat × β)) (k k' : Nat) (v : β)
    (h : k ≠ k') :
    odLookup (odSet m k v) k' = odLookup m k' := by
  unfold odSet
  by_cases hmem : m.any (fun p => p.1 == k)
  · rw [if_pos hmem]
    clear hmem
    induction m with
    | nil => rfl
    | cons p rest ih =>
      by_cases hk : p.1 = k
      · simp only [List.map_cons, if_pos (show (p.1 == k) = true by simpa using hk)]
        rw [odLookup_cons_neg _ _ _ h, odLookup_cons_neg p rest k' (by rw [hk]; exact h)]
        exact ih
      · simp only [List.map_cons,
          if_neg (show ¬(p.1 == k) = true by simpa using hk)]
        by_cases hk2 : p.1 = k'
        · rw [odLookup_cons_pos _ _ _ hk2, odLookup_cons_pos p rest k' hk2]
        · rw [odLookup_cons_neg _ _ _ hk2, odLookup_cons_neg p rest k' hk2]
          exact ih
  · rw [if_neg hmem]
    induction m with
    | nil => exact odLookup_cons_neg (k, v) [] k' h
    | cons p rest ih =>
      have hmem2 : ¬rest.any (fun p => p.1 == k) := by
        intro hc
        rcases List.any_eq_true.mp hc with ⟨q, hq, hqk⟩
        exact hmem (List.any_eq_true.mpr ⟨q, List.mem_cons_of_mem p hq, hqk⟩)
      by_cases hk2 : p.1 = k'
      · rw [List.cons_append, odLookup_cons_pos _ _ _ hk2, odLookup_cons_pos p rest k' hk2]
      · rw [List.cons_append, odLookup_cons_neg _ _ _ hk2, odLookup_cons_neg p rest k' hk2]
        exact ih hmem2

theorem odLookup_odSet_self (m : List (Nat × β)) (k : Nat) (v : β) :
    odLookup (odSet m k v) k = some v := by
  unfold odSet
  by_cases hmem : m.any (fun p => p.1 == k)
  · rw [if_pos hmem]
    induction m with
    | nil => simp at hmem
    | cons p rest ih =>
      by_cases hk : p.1 = k
      · simp only [List.map_cons, if_pos (show (p.1 == k) = true by simpa using hk)]
        exact odLookup_cons_pos (k, v) _ k rfl
      · simp only [List.map_cons,
          if_neg (show ¬(p.1 == k) = true by simpa using hk)]
        rw [odLookup_cons_neg _ _ _ hk]
        have hmem2 : rest.any (fun p => p.1 == k) := by
          rcases List.any_eq_true.mp hmem with ⟨q, hq, hqk⟩
          rcases List.mem_cons.mp hq with rfl | hq2
          · exact absurd (by simpa using hqk) hk
          · exact List.any_eq_true.mpr ⟨q, hq2, hqk⟩
        exact ih hmem2
  · rw [if_neg hmem]
    induction m with
    | nil => exact odLookup_cons_pos (k, v) [] k rfl
    | cons p rest ih =>
      have hmem2 : ¬rest.any (fun p => p.1 == k) := by
        intro hc
        rcases List.any_eq_true.mp hc with ⟨q, hq, hqk⟩
        exact hmem (List.any_eq_true.mpr ⟨q, List.mem_cons_of_mem p hq, hqk⟩)
      have hk : ¬p.1 = k := by
        intro hc
        exact hmem (List.any_eq_true.mpr ⟨p, List.mem_cons_self p rest, by simpa using hc⟩)
      rw [List.cons_append, odLookup_cons_neg _ _ _ hk]
      exact ih hmem2

theorem odLookup_odDelete_ne (m : List (Nat × β)) (k k' : Nat)
    (h : k ≠ k') :
    odLookup (odDelete m k) k' = odLookup m k' := by
  induction m with
  | nil => rfl
  | cons p rest ih =>
    unfold odDelete at ih ⊢
    rw [List.eraseP_cons]
    by_cases hk : p.1 = k
    · rw [show (p.1 == k) = true from by simpa using hk]
      simp only [cond_true]
      rw [odLookup_cons_neg p rest k' (by rw [hk]; exact h)]
    · rw [show (p.1 == k) = false from by simpa using hk]
      simp only [cond_false]
      by_cases hk2 : p.1 = k'
      · rw [odLookup_cons_pos _ _ _ hk2, odLookup_cons_pos p rest k' hk2]
      · rw [odLookup_cons_neg _ _ _ hk2, odLookup_cons_neg p rest k' hk2]
        exact ih

theorem odLookup_odDelete_self (m : List (Nat × β)) (k : Nat)
    (hnd : (m.map Prod.fst).Nodup) :
    odLookup (odDelete m k) k = none := by
  induction m with
  | nil => rfl
  | cons p rest ih =>
    simp only [List.map_cons, List.nodup_cons] at hnd
    unfold odDelete at ih ⊢
    rw [List.eraseP_cons]
    by_cases hk : p.1 = k
    · rw [show (p.1 == k) = true from by simpa using hk]
      simp only [cond_true]
      apply odLookup_eq_none
      intro q hq hqk
      apply hnd.1
      rw [← hk] at hqk
      rw [← hqk]
      exact List.mem_map_of_mem Prod.fst hq
    · rw [show (p.1 == k) = false from by simpa using hk]
      simp only [cond_false]
      rw [odLookup_cons_neg _ _ _ hk]
      exact ih hnd.2

/-! ## Claim theorems -/
/-- C6: EREW dispatch is deterministic and idempotent.  For every policy
state, `EREWDispatchPolicy.select(req)` returns
`(hash(req) mod num_buckets) mod num_queues`, a value depending only on
the request and the fixed configuration; in particular calling `select`
again on the post-dispatch state returns the same queue index, no matter
how many requests were dispatched before. -/
theorem C6_erew_select_deterministic :
    (∀ (s : KeyPolicyState) (req : Req),
      (EREW_select s req).1 = (hashReq req % s.num_buckets) % s.num_queues) ∧
    (∀ (s : KeyPolicyState) (req : Req),
      (EREW_select (EREW_select s req).2 req).1 = (EREW_select s req).1) := by
  exact ⟨fun s req => rfl, fun s req => rfl⟩

/-- C7: constructing any JBSQ-based dispatch policy (plain JBSQ,
JBSQ-bounded CREW, or dynamic-CREW) with depth bound 0 raises
`ValueError("Cannot have JBSQ(0)")` in the constructor — i.e. before the
simulation starts — and construction with any bound ≥ 1 succeeds. -/
theorem C7_jbsq_depth_zero_rejected (n B M b : Nat) (hb : 1 ≤ b) :
    JBSQDispatchPolicy_init n 0 = Except.error "Cannot have JBSQ(0)" ∧
    JBSCREWDispatchPolicy_init n 0 B = Except.error "Cannot have JBSQ(0)" ∧
    DynJBSCREWDispatchPolicy_init n 0 B M = Except.error "Cannot have JBSQ(0)" ∧
    (∃ st, JBSQDispatchPolicy_init n b = Except.ok st) ∧
    (∃ st, JBSCREWDispatchPolicy_init n b B = Except.ok st) ∧
    (∃ st, DynJBSCREWDispatchPolicy_init n b B M = Except.ok st) := by
  have hb0 : ¬b = 0 := by omega
  have hbase : JBSQDispatchPolicy_init n b = Except.ok
      { depth_limit := b, num_queues := n,
        queue_length_tracking := List.replicate n [] } := by
    simp [JBSQDispatchPolicy_init, hb0]
  refine ⟨rfl, rfl, rfl, ⟨_, hbase⟩,
    ⟨{ depth_limit := b, num_queues := n,
       queue_length_tracking := List.replicate n [],
       num_hash_buckets := B, bucket_load_counter := [] }, ?_⟩,
    ⟨{ depth_limit := b, num_queues := n,
       queue_length_tracking := List.replicate n [],
       num_hash_buckets := B, max_buckets_tracking := M,
       bucket_mappings := [], balanced_writes := 0, excl_writes := 0,
       balanced_reads := 0, linearized_reads := 0,
       bucket_load_counter := [] }, ?_⟩⟩
  · unfold JBSCREWDispatchPolicy_init
    rw [hbase]
    rfl
  · unfold DynJBSCREWDispatchPolicy_init
    rw [hbase]
    rfl

theorem C7_jbsq_depth_zero_rejected_witness :
    JBSQDispatchPolicy_init 8 0 = Except.error "Cannot have JBSQ(0)" ∧
    JBSCREWDispatchPolicy_init 8 0 16 = Except.error "Cannot have JBSQ(0)" ∧
    DynJBSCREWDispatchPolicy_init 8 0 16 32 = Except.error "Cannot have JBSQ(0)" ∧
    (∃ st, JBSQDispatchPolicy_init 8 1 = Except.ok st) ∧
    (∃ st, JBSCREWDispatchPolicy_init 8 1 16 = Except.ok st) ∧
    (∃ st, DynJBSCREWDispatchPolicy_init 8 1 16 32 = Except.ok st) :=
  C7_jbsq_depth_zero_rejected 8 16 32 1 (by decide)

/-- C4 (evaluating the code at the failing input): the worker's
instability window is broken.  `putSTime` deletes index 0 as soon as the
list reaches length 5, so at most 4 service times are ever stored, and
`isSimulationUnstable` is `all` over the current contents: after the
very first completed request with service time ≥ the threshold
(1000000), the simulation is already flagged unstable — detection does
not require 5 consecutive over-threshold service times. -/
theorem C4_instability_fires_after_one_sample :
    isSimulationUnstable (putSTime [] kill_sim_threshold) = true ∧
    (∀ (l : List Nat) (t : Nat), l.length ≤ 4 → (putSTime l t).length ≤ 4) := by
  constructor
  · decide
  · intro l t hl
    unfold putSTime
    by_cases h5 : 5 ≤ (l ++ [t]).length
    · rw [if_pos h5]
      simp at h5 ⊢
      omega
    · rw [if_neg h5]
      simp at h5 ⊢
      omega

theorem C4_instability_fires_after_one_sample_witness :
    (putSTime [1000001, 1000002, 1000003, 1000004] 1000005).length ≤ 4 :=
  C4_instability_fires_after_one_sample.2 [1000001, 1000002, 1000003, 1000004]
    1000005 (by decide)

/-- C8 counterexample: the claim says each histogram covers 1 ns to
100 ms; 100 ms is 100000000 ns, but the store is constructed with
`HdrHistogram(1, 100000, 3)`, whose highest trackable value is 100000
(100 µs in ns). -/
theorem C8_range_counterexample :
    (mkLatencyStoreWithBreakdown true).lat_store.highest_trackable_value
      ≠ 100000000 := by
  decide

/-- C8 (amended): the latency store keeps three separate HDR histograms
(all, reads only, writes only), each configured as
`HdrHistogram(1, 100000, 3)` — range 1 to 100000 time units with 3
significant digits (not 100 ms) — and `record_value(req, lat)` records
`lat` into the overall histogram and into exactly one of the read/write
histograms according to `req`'s write flag. -/
theorem C8_latency_store_breakdown :
    (∀ so : Bool,
      (mkLatencyStoreWithBreakdown so).lat_store = ⟨1, 100000, 3, []⟩ ∧
      (mkLatencyStoreWithBreakdown so).read_lat_store = ⟨1, 100000, 3, []⟩ ∧
      (mkLatencyStoreWithBreakdown so).write_lat_store = ⟨1, 100000, 3, []⟩) ∧
    (∀ (s : LatencyStoreWithBreakdown) (req : Req) (lat : Nat),
      (LatencyStore_record_value s req lat).lat_store.recorded =
        s.lat_store.recorded ++ [lat] ∧
      (LatencyStore_record_value s req lat).write_lat_store.recorded =
        (if req.isWrite then s.write_lat_store.recorded ++ [lat]
          else s.write_lat_store.recorded) ∧
      (LatencyStore_record_value s req lat).read_lat_store.recorded =
        (if req.isWrite then s.read_lat_store.recorded
          else s.read_lat_store.recorded ++ [lat])) := by
  constructor
  · intro so
    exact ⟨rfl, rfl, rfl⟩
  · intro s req lat
    cases hw : req.isWrite <;>
      simp [LatencyStore_record_value, HdrHistogram.record_value, hw] <;>
      split <;> simp

/-! ## SHA-256 word bounds and the C9 theorems -/
theorem getD_eq_default_or_mem (l : List α) (i : Nat) (d : α) :
    l.getD i d = d ∨ l.getD i d ∈ l := by
  induction l generalizing i with
  | nil => exact Or.inl rfl
  | cons x xs ih =>
    cases i with
    | zero => exact Or.inr (List.mem_cons_self x xs)
    | succ n =>
      rcases ih n with h | h
      · exact Or.inl h
      · exact Or.inr (List.mem_cons_of_mem x h)

theorem shaCompressBlock_mem_lt (h block : List Nat) :
    ∀ x ∈ shaCompressBlock h block, x < 4294967296 := by
  obtain ⟨a0, a1, a2, a3, a4, a5, a6, a7, heq⟩ :
      ∃ a0 a1 a2 a3 a4 a5 a6 a7, shaCompressBlock h block =
        [w32 a0, w32 a1, w32 a2, w32 a3, w32 a4, w32 a5, w32 a6, w32 a7] :=
    ⟨_, _, _, _, _, _, _, _, rfl⟩
  intro x hx
  rw [heq] at hx
  simp only [List.mem_cons, List.not_mem_nil, or_false] at hx
  rcases hx with rfl | rfl | rfl | rfl | rfl | rfl | rfl | rfl <;>
    · unfold w32; omega

theorem shaProcess_mem_lt (fuel : Nat) :
    ∀ (h ws : List Nat), (∀ x ∈ h, x < 4294967296) →
      ∀ x ∈ shaProcess fuel h ws, x < 4294967296 := by
  induction fuel with
  | zero => intro h ws hh x hx; exact hh x hx
  | succ n ih =>
    intro h ws hh x hx
    cases ws with
    | nil => exact hh x hx
    | cons w rest =>
      exact ih _ _ (shaCompressBlock_mem_lt h _) x hx

theorem sha256Words_mem_lt (msg : List Nat) :
    ∀ x ∈ sha256Words msg, x < 4294967296 := by
  unfold sha256Words
  apply shaProcess_mem_lt
  intro x hx
  unfold shaH0 at hx
  simp only [List.mem_cons, List.not_mem_nil, or_false] at hx
  rcases hx with rfl | rfl | rfl | rfl | rfl | rfl | rfl | rfl <;> decide

theorem hash_int_to_key_lt (k : Nat) : hash_int_to_key k < 4294967296 := by
  unfold hash_int_to_key
  rcases getD_eq_default_or_mem (sha256Words (strBytesOfNat k)) 6 0 with h | h
  · omega
  · exact sha256Words_mem_lt _ _ h

/-- C9 counterexample: for rank 0 (present in any initialized
distribution), `hash_for_rank` does *not* return the 8-byte low-bytes
hash of `str(0)`'s SHA-256 digest: the code parses
`hexdigest()[-16:-8]`, which is digest bytes 24..27 only. -/
theorem C9_not_an_8_byte_low_hash :
    hash_for_rank (mkZipfKeyGenerator 1) 0 ≠ sha256_low8_of_rank 0 := by
  decide

/-- C9 (amended): for every rank `k` of the initialized distribution,
`hash_for_rank(k)` returns the precomputed value
`hash_int_to_key(k) = int(sha256(str(k)).hexdigest()[-16:-8], 16)` —
a 4-byte quantity (digest bytes 24..27), not an 8-byte low-bytes hash —
and, the table being precomputed at init, repeated calls for the same
`k` return the same value. -/
theorem C9_hash_for_rank_precomputed (N k : Nat) (hk : k < N) :
    hash_for_rank (mkZipfKeyGenerator N) k = hash_int_to_key k ∧
    hash_int_to_key k < 4294967296 := by
  refine ⟨?_, hash_int_to_key_lt k⟩
  unfold hash_for_rank mkZipfKeyGenerator
  simp only
  rw [List.getD_eq_getElem?_getD, List.getElem?_map, List.getElem?_range hk]
  rfl

theorem C9_hash_for_rank_precomputed_witness :
    hash_for_rank (mkZipfKeyGenerator 3) 2 = hash_int_to_key 2 ∧
    hash_int_to_key 2 < 4294967296 :=
  C9_hash_for_rank_precomputed 3 2 (by decide)

/-! ## Shortest-queue characterisations and the C5 theorem -/
theorem getD_mem_of_lt (l : List α) (i : Nat) (d : α) (h : i < l.length) :
    l.getD i d ∈ l := by
  induction l generalizing i with
  | nil => simp at h
  | cons x xs ih =>
    cases i with
    | zero => exact List.mem_cons_self x xs
    | succ n => exact List.mem_cons_of_mem x (ih n (by simpa using h))

/-- `find_shortest_q` reports all queues at or above depth `D` exactly
when every tracked queue really is at or above depth `D`. -/
theorem find_shortest_q_full_iff (qs : List (List Req)) (D : Nat)
    (hne : qs ≠ []) (hb : ∀ q ∈ qs, q.length < 1000000000) :
    (¬(find_shortest_q qs).2 < D) ↔
      ∀ j, j < qs.length → D ≤ (qs.getD j []).length := by
  constructor
  · intro h j hj
    have := find_shortest_q_le qs (qs.getD j []) (getD_mem_of_lt qs j [] hj)
    omega
  · intro h
    obtain ⟨hlt, hattain⟩ := find_shortest_q_attains qs hne hb
    have := h (find_shortest_q qs).1 hlt
    omega

/-- C5: JBSQ-bounded CREW dispatch.  For a read, `select` returns `-1`
exactly when every tracked queue length is already ≥ the depth bound,
and otherwise returns an index of a shortest queue and prepends the
request to that queue's tracking deque.  For a write, `select`
unconditionally returns `(hash(req) mod B) mod C`, ignoring the depth
bound, and prepends the request to that queue's tracking deque. -/
theorem C5_jbscrew_select_contract :
    (∀ (s : JBSCREWState) (req : Req), req.isWrite = true →
      (JBSCREW_select s req).1 =
        Int.ofNat ((hashReq req % s.num_hash_buckets) % s.num_queues) ∧
      (JBSCREW_select s req).2.queue_length_tracking =
        modifyAt (fun q => req :: q)
          ((hashReq req % s.num_hash_buckets) % s.num_queues)
          s.queue_length_tracking) ∧
    (∀ (s : JBSCREWState) (req : Req), req.isWrite = false →
      s.queue_length_tracking ≠ [] →
      (∀ q ∈ s.queue_length_tracking, q.length < 1000000000) →
      (((JBSCREW_select s req).1 = -1 ↔
        ∀ j, j < s.queue_length_tracking.length →
          s.depth_limit ≤ (s.queue_length_tracking.getD j []).length) ∧
       ∀ i : Nat, (JBSCREW_select s req).1 = Int.ofNat i →
         i < s.queue_length_tracking.length ∧
         (∀ j, j < s.queue_length_tracking.length →
           (s.queue_length_tracking.getD i []).length ≤
             (s.queue_length_tracking.getD j []).length) ∧
         (JBSCREW_select s req).2.queue_length_tracking.getD i [] =
           req :: s.queue_length_tracking.getD i [])) := by
  constructor
  · intro s req hw
    unfold JBSCREW_select
    rw [if_pos hw]
    exact ⟨rfl, rfl⟩
  · intro s req hw hne hb
    unfold JBSCREW_select
    rw [if_neg (by simp [hw])]
    obtain ⟨hlt, hattain⟩ := find_shortest_q_attains s.queue_length_tracking hne hb
    by_cases hd : (find_shortest_q s.queue_length_tracking).2 < s.depth_limit
    · rw [if_pos hd]
      constructor
      · simp only
        constructor
        · intro hcontra
          have h2 : Int.ofNat (find_shortest_q s.queue_length_tracking).1 =
              -1 := hcontra
          rw [Int.ofNat_eq_natCast] at h2
          exact absurd h2 (by omega)
        · intro hall
          have h1 := hall (find_shortest_q s.queue_length_tracking).1 hlt
          rw [hattain] at h1
          exact absurd (show False by omega) id
      · intro i hi
        have hi2 : Int.ofNat (find_shortest_q s.queue_length_tracking).1 =
            Int.ofNat i := hi
        rw [Int.ofNat_eq_natCast, Int.ofNat_eq_natCast] at hi2
        have hieq : i = (find_shortest_q s.queue_length_tracking).1 := by
          omega
        subst hieq
        refine ⟨hlt, ?_, ?_⟩
        · intro j hj
          rw [hattain]
          exact find_shortest_q_le _ _ (getD_mem_of_lt _ j [] hj)
        · simp only
          exact getD_modifyAt_self _ _ _ _ hlt
    · rw [if_neg hd]
      refine ⟨?_, ?_⟩
      · simp only
        constructor
        · intro _
          exact (find_shortest_q_full_iff s.queue_length_tracking
            s.depth_limit hne hb).mp hd
        · intro _; trivial
      · intro i hi
        have h2 : (-1 : Int) = Int.ofNat i := hi
        rw [Int.ofNat_eq_natCast] at h2
        exact absurd h2 (by omega)

theorem C5_jbscrew_select_contract_witness :
    ((JBSCREW_select
        { depth_limit := 2, num_queues := 2,
          queue_length_tracking := [[], []], num_hash_buckets := 8,
          bucket_load_counter := [] }
        { num := 0, h := 5, isWrite := true }).1 = Int.ofNat ((5 % 8) % 2) ∧
      (JBSCREW_select
        { depth_limit := 2, num_queues := 2,
          queue_length_tracking := [[], []], num_hash_buckets := 8,
          bucket_load_counter := [] }
        { num := 0, h := 5, isWrite := true }).2.queue_length_tracking =
        modifyAt (fun q => { num := 0, h := 5, isWrite := true } :: q) ((5 % 8) % 2)
          [[], []]) ∧
    ((JBSCREW_select
        { depth_limit := 1, num_queues := 2,
          queue_length_tracking := [[{ num := 1, h := 0, isWrite := true }], []],
          num_hash_buckets := 8, bucket_load_counter := [] }
        { num := 2, h := 3, isWrite := false }).1 = -1 ↔
      ∀ j, j < ([[{ num := 1, h := 0, isWrite := true }], []] :
          List (List Req)).length →
        1 ≤ (([[{ num := 1, h := 0, isWrite := true }], []] :
          List (List Req)).getD j []).length) := by
  constructor
  · exact C5_jbscrew_select_contract.1 _ _ rfl
  · exact (C5_jbscrew_select_contract.2 _
      { num := 2, h := 3, isWrite := false } rfl (by simp) (by
        intro q hq
        simp only [List.mem_cons, List.not_mem_nil, or_false] at hq
        rcases hq with rfl | rfl <;> simp)).1

/-! ## Dynamic-CREW: the C1 and C10 theorems -/
theorem odModify_map_fst (m : List (Nat × β)) (k : Nat) (f : β → β) :
    (odModify m k f).map Prod.fst = m.map Prod.fst := by
  induction m with
  | nil => rfl
  | cons p rest ih =>
    unfold odModify at ih ⊢
    simp only [List.map_cons]
    by_cases hk : p.1 = k
    · rw [if_pos (show (p.1 == k) = true by simpa using hk)]
      simp only [List.map_cons]
      rw [ih]
    · rw [if_neg (show ¬(p.1 == k) = true by simpa using hk)]
      rw [ih]

/-- C1: the dynamic-CREW dispatch decision tree for buckets that already
have an owner, and the write-completion path.
* A write to an owned bucket is dispatched to the owning queue and the
  entry's outstanding-write count is incremented.
* A read to an owned bucket goes to a shortest queue when its tracked
  length is below the depth bound, and is refused (`-1`) exactly when
  every tracked queue is at or above the bound.
* `write_req_finished` decrements the bucket's outstanding count by
  exactly one, removes the mapping exactly when the count reaches zero,
  and leaves every other bucket's mapping unchanged. -/
theorem C1_dynamic_crew_decision_tree :
    (∀ (s : DynState) (req : Req) (m : BucketMappingMetadata),
      req.isWrite = true →
      odLookup s.bucket_mappings (hashReq req % s.num_hash_buckets) = some m →
      (DynJBSCREW_select s req).1 = Int.ofNat m.core ∧
      odLookup (DynJBSCREW_select s req).2.bucket_mappings
          (hashReq req % s.num_hash_buckets) =
        some { core := m.core, wrs_outstanding := m.wrs_outstanding + 1 }) ∧
    (∀ (s : DynState) (req : Req) (m : BucketMappingMetadata),
      req.isWrite = false →
      odLookup s.bucket_mappings (hashReq req % s.num_hash_buckets) = some m →
      s.queue_length_tracking ≠ [] →
      (∀ q ∈ s.queue_length_tracking, q.length < 1000000000) →
      (((DynJBSCREW_select s req).1 = -1 ↔
        ∀ j, j < s.queue_length_tracking.length →
          s.depth_limit ≤ (s.queue_length_tracking.getD j []).length) ∧
       ∀ i : Nat, (DynJBSCREW_select s req).1 = Int.ofNat i →
         i < s.queue_length_tracking.length ∧
         ∀ j, j < s.queue_length_tracking.length →
           (s.queue_length_tracking.getD i []).length ≤
             (s.queue_length_tracking.getD j []).length)) ∧
    (∀ (s : DynState) (bucket excl_q : Nat) (m : BucketMappingMetadata),
      odLookup s.bucket_mappings bucket = some m →
      m.core = excl_q →
      (s.bucket_mappings.map Prod.fst).Nodup →
      ∃ s2, Dyn_write_req_finished s bucket excl_q =
          Except.ok (m.wrs_outstanding - 1, s2) ∧
        odLookup s2.bucket_mappings bucket =
          (if m.wrs_outstanding - 1 = 0 then none
            else some ⟨m.core, m.wrs_outstanding - 1⟩) ∧
        ∀ b2, b2 ≠ bucket →
          odLookup s2.bucket_mappings b2 = odLookup s.bucket_mappings b2) := by
  refine ⟨?_, ?_, ?_⟩
  · intro s req m hw hlook
    unfold DynJBSCREW_select
    simp only [hlook]
    rw [if_pos hw]
    refine ⟨rfl, ?_⟩
    show odLookup (Dyn_update_metadata s req .FOLLOWING_EXCL_WRITE m.core
      (hashReq req % s.num_hash_buckets)).bucket_mappings _ = _
    unfold Dyn_update_metadata Dyn_update_bucket_load Dyn_update_q_len_tracking
    simp only
    exact odLookup_odModify_self s.bucket_mappings _ _ m hlook
  · intro s req m hw hlook hne hb
    unfold DynJBSCREW_select
    simp only [hlook]
    rw [if_neg (by simp [hw])]
    obtain ⟨hlt, hattain⟩ := find_shortest_q_attains s.queue_length_tracking hne hb
    by_cases hd : (find_shortest_q s.queue_length_tracking).2 < s.depth_limit
    · rw [if_pos hd]
      constructor
      · constructor
        · intro hcontra
          have h2 : Int.ofNat (find_shortest_q s.queue_length_tracking).1 =
              -1 := hcontra
          rw [Int.ofNat_eq_natCast] at h2
          exact absurd h2 (by omega)
        · intro hall
          have h1 := hall (find_shortest_q s.queue_length_tracking).1 hlt
          rw [hattain] at h1
          exact absurd (show False by omega) id
      · intro i hi
        have hi2 : Int.ofNat (find_shortest_q s.queue_length_tracking).1 =
            Int.ofNat i := hi
        rw [Int.ofNat_eq_natCast, Int.ofNat_eq_natCast] at hi2
        have hieq : i = (find_shortest_q s.queue_length_tracking).1 := by
          omega
        subst hieq
        refine ⟨hlt, ?_⟩
        intro j hj
        rw [hattain]
        exact find_shortest_q_le _ _ (getD_mem_of_lt _ j [] hj)
    · rw [if_neg hd]
      constructor
      · constructor
        · intro _
          exact (find_shortest_q_full_iff s.queue_length_tracking
            s.depth_limit hne hb).mp hd
        · intro _; trivial
      · intro i hi
        have h2 : (-1 : Int) = Int.ofNat i := hi
        rw [Int.ofNat_eq_natCast] at h2
        exact absurd h2 (by omega)
  · intro s bucket excl_q m hlook hcore hnd
    unfold Dyn_write_req_finished
    simp only [hlook]
    rw [if_neg (show ¬m.core ≠ excl_q from fun hc => hc hcore)]
    by_cases hz : m.wrs_outstanding - 1 = 0
    · rw [if_pos hz]
      refine ⟨_, rfl, ?_, ?_⟩
      · rw [if_pos hz]
        apply odLookup_odDelete_self
        rw [odModify_map_fst]
        exact hnd
      · intro b2 hb2
        rw [odLookup_odDelete_ne _ bucket b2 (fun hc => hb2 hc.symm)]
        exact odLookup_odModify_ne s.bucket_mappings bucket b2 _
          (fun hc => hb2 hc.symm)
    · rw [if_neg hz]
      refine ⟨_, rfl, ?_, ?_⟩
      · rw [if_neg hz]
        have heq := odLookup_odModify_self s.bucket_mappings bucket
          (fun mm => { mm with wrs_outstanding := mm.wrs_outstanding - 1 }) m hlook
        rw [heq]
      · intro b2 hb2
        exact odLookup_odModify_ne s.bucket_mappings bucket b2
          (fun mm => { mm with wrs_outstanding := mm.wrs_outstanding - 1 })
          (fun hc => hb2 hc.symm)

theorem C1_dynamic_crew_decision_tree_witness :
    ((DynJBSCREW_select c1State ⟨0, 1, true⟩).1 = Int.ofNat 0 ∧
      odLookup (DynJBSCREW_select c1State ⟨0, 1, true⟩).2.bucket_mappings
          (hashReq ⟨0, 1, true⟩ % c1State.num_hash_buckets) =
        some { core := 0, wrs_outstanding := 2 + 1 }) ∧
    ((DynJBSCREW_select c1State ⟨1, 1, false⟩).1 = -1 ↔
      ∀ j, j < c1State.queue_length_tracking.length →
        c1State.depth_limit ≤ (c1State.queue_length_tracking.getD j []).length) ∧
    (∃ s2, Dyn_write_req_finished c1State 1 0 =
        Except.ok ((2 : Int) - 1, s2) ∧
      odLookup s2.bucket_mappings 1 =
        (if (2 : Int) - 1 = 0 then none else some ⟨0, (2 : Int) - 1⟩) ∧
      ∀ b2, b2 ≠ 1 →
        odLookup s2.bucket_mappings b2 = odLookup c1State.bucket_mappings b2) := by
  refine ⟨?_, ?_, ?_⟩
  · exact C1_dynamic_crew_decision_tree.1 c1State ⟨0, 1, true⟩ ⟨0, 2⟩ rfl (by decide)
  · exact (C1_dynamic_crew_decision_tree.2.1 c1State ⟨1, 1, false⟩ ⟨0, 2⟩ rfl
      (by decide) (by decide) (by decide)).1
  · exact C1_dynamic_crew_decision_tree.2.2 c1State 1 0 ⟨0, 2⟩ (by decide) rfl
      (by decide)

/-- C10: when the exclusive-bucket map already holds
`max_buckets_tracking` entries and a write to an unowned bucket is
dispatched (queues permitting), `add_to_excl_bucket` evicts the
oldest-inserted entry even if its outstanding-write count is nonzero;
the evicted bucket is no longer mapped, so a completion notification for
a write to it makes `write_req_finished` fail its
`bucket in self.bucket_mappings` assertion. -/
theorem C10_capacity_eviction_breaks_completion
    (s : DynState) (r : Req) (b0 : Nat) (m0 : BucketMappingMetadata)
    (rest : List (Nat × BucketMappingMetadata))
    (hmap : s.bucket_mappings = (b0, m0) :: rest)
    (hfull : s.bucket_mappings.length = s.max_buckets_tracking)
    (hout : m0.wrs_outstanding ≠ 0)
    (hw : r.isWrite = true)
    (hunowned : odLookup s.bucket_mappings (hashReq r % s.num_hash_buckets) = none)
    (hspace : (find_shortest_q s.queue_length_tracking).2 < s.depth_limit)
    (hnd : (s.bucket_mappings.map Prod.fst).Nodup) :
    odLookup (DynJBSCREW_select s r).2.bucket_mappings b0 = none ∧
    ∀ q2, ∃ msg, Dyn_write_req_finished (DynJBSCREW_select s r).2 b0 q2 =
      Except.error msg := by
  have hb0ne : hashReq r % s.num_hash_buckets ≠ b0 := by
    intro hc
    rw [hc, hmap] at hunowned
    rw [odLookup_cons_pos (b0, m0) rest b0 rfl] at hunowned
    cases hunowned
  have hb0rest : ∀ p ∈ rest, p.1 ≠ b0 := by
    intro p hp hc
    rw [hmap] at hnd
    simp only [List.map_cons, List.nodup_cons] at hnd
    exact hnd.1 (hc ▸ List.mem_map_of_mem Prod.fst hp)
  have hsel : (DynJBSCREW_select s r).2.bucket_mappings =
      odSet rest (hashReq r % s.num_hash_buckets)
        ⟨(find_shortest_q s.queue_length_tracking).1, 1⟩ := by
    unfold DynJBSCREW_select
    simp only [hunowned]
    rw [if_pos hspace, if_pos hw]
    show (Dyn_update_metadata s r .NEW_EXCL_WRITE _ _).bucket_mappings = _
    unfold Dyn_update_metadata Dyn_update_bucket_load Dyn_update_q_len_tracking
      Dyn_add_to_excl_bucket
    simp only
    rw [if_pos (by omega), hmap]
    rfl
  have hnone : odLookup (DynJBSCREW_select s r).2.bucket_mappings b0 = none := by
    rw [hsel, odLookup_odSet_ne _ _ _ _ hb0ne]
    exact odLookup_eq_none rest b0 hb0rest
  refine ⟨hnone, ?_⟩
  intro q2
  refine ⟨"Bucket not in exclusive mappings despite having a write req finished for it!", ?_⟩
  unfold Dyn_write_req_finished
  rw [hnone]

theorem C10_capacity_eviction_breaks_completion_witness :
    odLookup (DynJBSCREW_select
      { depth_limit := 2, num_queues := 2, queue_length_tracking := [[], []],
        num_hash_buckets := 4, max_buckets_tracking := 1,
        bucket_mappings := [(1, ⟨0, 2⟩)],
        balanced_writes := 0, excl_writes := 0, balanced_reads := 0,
        linearized_reads := 0, bucket_load_counter := [] }
      ⟨5, 2, true⟩).2.bucket_mappings 1 = none ∧
    ∀ q2, ∃ msg, Dyn_write_req_finished (DynJBSCREW_select
      { depth_limit := 2, num_queues := 2, queue_length_tracking := [[], []],
        num_hash_buckets := 4, max_buckets_tracking := 1,
        bucket_mappings := [(1, ⟨0, 2⟩)],
        balanced_writes := 0, excl_writes := 0, balanced_reads := 0,
        linearized_reads := 0, bucket_load_counter := [] }
      ⟨5, 2, true⟩).2 1 q2 = Except.error msg :=
  C10_capacity_eviction_breaks_completion _ _ 1 ⟨0, 2⟩ [] rfl rfl
    (by decide) rfl (by decide) (by decide) (by decide)

/-- C3: waiter drain.  When a bucket's version is incremented (in
particular from odd to even), the async updater succeeds every event in
that bucket's waiter list exactly once — each waiter's succeed count
rises by exactly 1, other events are untouched — and immediately
afterwards the bucket's waiter list is empty (so no drained waiter can
ever be re-fired); other buckets' waiter lists are unchanged. -/
theorem C3_waiter_drain (b : BucketedIndex) (idx : Nat)
    (hodd : b.get_index_version idx % 2 = 1)
    (hbuck : idx < b.buckets.length)
    (hwl : idx < b.event_waitlist.length)
    (hnd : (b.event_waitlist.getD idx []).Nodup) :
    (asyncIndexUpdater_fire b idx).get_index_version idx =
      b.get_index_version idx + 1 ∧
    (asyncIndexUpdater_fire b idx).get_index_version idx % 2 = 0 ∧
    (asyncIndexUpdater_fire b idx).event_waitlist.getD idx [] = [] ∧
    (∀ j, j ≠ idx →
      (asyncIndexUpdater_fire b idx).event_waitlist.getD j [] =
        b.event_waitlist.getD j []) ∧
    (asyncIndexUpdater_fire b idx).events =
      b.events.map (fun e =>
        if e.eid ∈ b.event_waitlist.getD idx []
        then { e with succeedCount := e.succeedCount + 1 } else e) := by
  have hver : (asyncIndexUpdater_fire b idx).get_index_version idx =
      b.get_index_version idx + 1 := by
    unfold asyncIndexUpdater_fire BucketedIndex.succeed_event_for_bucket
      BucketedIndex.inc_index_version BucketedIndex.get_index_version
    simp only
    exact getD_modifyAt_self _ idx b.buckets 0 hbuck
  refine ⟨hver, by rw [hver]; omega, ?_, ?_, ?_⟩
  · unfold asyncIndexUpdater_fire BucketedIndex.succeed_event_for_bucket
      BucketedIndex.inc_index_version
    simp only
    exact getD_modifyAt_self _ idx b.event_waitlist [] hwl
  · intro j hj
    unfold asyncIndexUpdater_fire BucketedIndex.succeed_event_for_bucket
      BucketedIndex.inc_index_version
    simp only
    exact getD_modifyAt_ne _ idx j b.event_waitlist [] (fun hc => hj hc.symm)
  · unfold asyncIndexUpdater_fire BucketedIndex.succeed_event_for_bucket
      BucketedIndex.inc_index_version
    simp only
    rw [fireFold]
    apply List.map_congr_left
    intro e _
    by_cases hmem : e.eid ∈ b.event_waitlist.getD idx []
    · rw [if_pos hmem, List.count_eq_one_of_mem hnd hmem]
    · rw [if_neg hmem, List.count_eq_zero_of_not_mem hmem]
      rfl

theorem C3_waiter_drain_witness :
    (asyncIndexUpdater_fire ⟨1, [1], [[7]], [⟨7, 0⟩]⟩ 0).get_index_version 0 =
      (⟨1, [1], [[7]], [⟨7, 0⟩]⟩ : BucketedIndex).get_index_version 0 + 1 ∧
    (asyncIndexUpdater_fire ⟨1, [1], [[7]], [⟨7, 0⟩]⟩ 0).get_index_version 0 % 2 = 0 ∧
    (asyncIndexUpdater_fire ⟨1, [1], [[7]], [⟨7, 0⟩]⟩ 0).event_waitlist.getD 0 [] = [] ∧
    (∀ j, j ≠ 0 →
      (asyncIndexUpdater_fire ⟨1, [1], [[7]], [⟨7, 0⟩]⟩ 0).event_waitlist.getD j [] =
        (⟨1, [1], [[7]], [⟨7, 0⟩]⟩ : BucketedIndex).event_waitlist.getD j []) ∧
    (asyncIndexUpdater_fire ⟨1, [1], [[7]], [⟨7, 0⟩]⟩ 0).events =
      (⟨1, [1], [[7]], [⟨7, 0⟩]⟩ : BucketedIndex).events.map (fun e =>
        if e.eid ∈ (⟨1, [1], [[7]], [⟨7, 0⟩]⟩ : BucketedIndex).event_waitlist.getD 0 []
        then { e with succeedCount := e.succeedCount + 1 } else e) :=
  C3_waiter_drain ⟨1, [1], [[7]], [⟨7, 0⟩]⟩ 0 (by decide) (by decide) (by decide)
    (by decide)

/-! ## Tracking conservation: auxiliary lemmas and the C2 theorems -/
theorem modifyAt_out_of_range (f : α → α) (i : Nat) (l : List α)
    (h : ¬i < l.length) : modifyAt f i l = l := by
  induction l generalizing i with
  | nil => cases i <;> rfl
  | cons x xs ih =>
    cases i with
    | zero => simp at h
    | succ n =>
      unfold modifyAt
      rw [ih n (by simp at h ⊢; omega)]

theorem getD_replicate_lt (n i : Nat) (a d : α) (h : i < n) :
    (List.replicate n a).getD i d = a := by
  induction n generalizing i with
  | zero => omega
  | succ m ih =>
    cases i with
    | zero => rfl
    | succ j =>
      simp only [List.replicate_succ, List.getD_cons_succ]
      exact ih j (by omega)

theorem filter_append_singleton_length (p : α → Bool) (l : List α) (x : α) :
    ((l ++ [x]).filter p).length =
      (l.filter p).length + (if p x then 1 else 0) := by
  rw [List.filter_append]
  rw [List.length_append]
  congr 1
  by_cases h : p x
  · simp [List.filter, h]
  · simp [List.filter, h]

theorem filter_cons_length (p : α → Bool) (l : List α) (x : α) :
    ((x :: l).filter p).length =
      (if p x then 1 else 0) + (l.filter p).length := by
  by_cases h : p x
  · simp [List.filter_cons, h]
    omega
  · simp [List.filter_cons, h]

theorem JBSQ_select_num_queues (p : JBSQState) (r : Req) :
    (JBSQ_select p r).2.num_queues = p.num_queues ∧
    (JBSQ_select p r).2.depth_limit = p.depth_limit := by
  unfold JBSQ_select
  by_cases h : (find_shortest_q p.queue_length_tracking).2 < p.depth_limit
  · rw [if_pos h]; exact ⟨rfl, rfl⟩
  · rw [if_neg h]; exact ⟨rfl, rfl⟩

theorem JBSQ_select_tracking (p : JBSQState) (r : Req)
    (hok : (find_shortest_q p.queue_length_tracking).2 < p.depth_limit) :
    (JBSQ_select p r).2.queue_length_tracking =
      modifyAt (fun q => r :: q) (find_shortest_q p.queue_length_tracking).1
        p.queue_length_tracking := by
  unfold JBSQ_select
  rw [if_pos hok]

theorem SysInv_init (C D L : Nat) : SysInv (initSys C D L) := by
  refine ⟨⟨by simp [initSys], by simp [initSys], by simp [initSys]⟩,
    ⟨by simp [initSys], by simp [initSys]⟩, ?_⟩
  intro i hi
  unfold initSys pullCountFor CommCh.num_items_enqueued
  simp only
  rw [getD_replicate_lt C i ([] : List Req) [] hi,
    getD_replicate_lt C i (⟨L, [], []⟩ : CommCh Req) ⟨0, [], []⟩ hi,
    getD_replicate_lt C i CoreStatus.idle CoreStatus.idle hi]
  simp [inServiceCount]

theorem SysInv_step (s s' : Sys) (hst : Step s s') (hinv : SysInv s) :
    SysInv s' := by
  obtain ⟨⟨hw1, hw2, hw3⟩, ⟨hp1, hp2⟩, hcons⟩ := hinv
  cases hst with
  | advance t ht =>
    exact ⟨⟨hw1, hw2, hw3⟩, ⟨hp1, hp2⟩, hcons⟩
  | dispatch req hok =>
    have hnq : (JBSQ_select s.policy req).2.num_queues = s.policy.num_queues :=
      (JBSQ_select_num_queues s.policy req).1
    have htr : (JBSQ_select s.policy req).2.queue_length_tracking =
        modifyAt (fun q => req :: q)
          (find_shortest_q s.policy.queue_length_tracking).1
          s.policy.queue_length_tracking := JBSQ_select_tracking s.policy req hok
    refine ⟨⟨?_, ?_, ?_⟩, ⟨?_, ?_⟩, ?_⟩
    · show (JBSQ_select s.policy req).2.queue_length_tracking.length =
        (JBSQ_select s.policy req).2.num_queues
      rw [htr, modifyAt_length, hnq, hw1]
    · show (modifyAt _ _ s.dispChans).length = _
      rw [modifyAt_length, hnq, hw2]
    · show s.cores.length = _
      rw [hnq, hw3]
    · show ∀ p ∈ s.pull.inFlight, p.1.1 < (JBSQ_select s.policy req).2.num_queues
      rw [hnq]; exact hp1
    · show ∀ p ∈ s.pull.items, p.1 < (JBSQ_select s.policy req).2.num_queues
      rw [hnq]; exact hp2
    · intro i hi
      have hi2 : i < s.policy.num_queues := by
        rw [show (JBSQ_select s.policy req).2.num_queues =
          s.policy.num_queues from hnq] at hi
        exact hi
      have hold := hcons i hi2
      unfold pullCountFor CommCh.num_items_enqueued at hold
      show (((JBSQ_select s.policy req).2.queue_length_tracking).getD i []).length =
        ((modifyAt (fun c => c.put req s.now)
          (find_shortest_q s.policy.queue_length_tracking).1
          s.dispChans).getD i ⟨0, [], []⟩).inFlight.length +
        ((modifyAt (fun c => c.put req s.now)
          (find_shortest_q s.policy.queue_length_tracking).1
          s.dispChans).getD i ⟨0, [], []⟩).items.length +
        inServiceCount (s.cores.getD i .idle) +
        ((s.pull.inFlight.filter (fun p => p.1.1 == i)).length +
          (s.pull.items.filter (fun p => p.1 == i)).length)
      rw [htr]
      by_cases hij : i = (find_shortest_q s.policy.queue_length_tracking).1
      · rw [← hij]
        by_cases hrange : i < s.policy.queue_length_tracking.length
        · have hrange2 : i < s.dispChans.length := by omega
          rw [getD_modifyAt_self _ i s.policy.queue_length_tracking [] hrange]
          rw [getD_modifyAt_self _ i s.dispChans ⟨0, [], []⟩ hrange2]
          unfold CommCh.put
          simp only [List.length_cons, List.length_append, List.length_nil]
          omega
        · exact absurd (show i < s.policy.queue_length_tracking.length by omega)
            hrange
      · rw [getD_modifyAt_ne _ _ i s.policy.queue_length_tracking []
          (fun hc => hij hc.symm)]
        rw [getD_modifyAt_ne _ _ i s.dispChans ⟨0, [], []⟩
          (fun hc => hij hc.symm)]
        omega
  | deliver i0 r t rest hch ht hi0 =>
    refine ⟨⟨hw1, ?_, hw3⟩, ⟨hp1, hp2⟩, ?_⟩
    · show (modifyAt _ i0 s.dispChans).length = _
      rw [modifyAt_length]; exact hw2
    · intro i hi
      have hold := hcons i hi
      unfold pullCountFor CommCh.num_items_enqueued at hold
      show ((s.policy.queue_length_tracking).getD i []).length =
        ((modifyAt (fun c => { c with inFlight := rest, items := c.items ++ [r] })
          i0 s.dispChans).getD i ⟨0, [], []⟩).inFlight.length +
        ((modifyAt (fun c => { c with inFlight := rest, items := c.items ++ [r] })
          i0 s.dispChans).getD i ⟨0, [], []⟩).items.length +
        inServiceCount (s.cores.getD i .idle) +
        ((s.pull.inFlight.filter (fun p => p.1.1 == i)).length +
          (s.pull.items.filter (fun p => p.1 == i)).length)
      by_cases hij : i = i0
      · subst hij
        rw [getD_modifyAt_self _ i s.dispChans ⟨0, [], []⟩ hi0]
        simp only [List.length_append, List.length_singleton]
        rw [hch] at hold
        simp only [List.length_cons] at hold
        omega
      · rw [getD_modifyAt_ne _ i0 i s.dispChans ⟨0, [], []⟩
          (fun hc => hij hc.symm)]
        omega
  | coreGet i0 r rest stime hcore hitems hi0 hic =>
    refine ⟨⟨hw1, ?_, ?_⟩, ⟨hp1, hp2⟩, ?_⟩
    · show (modifyAt _ i0 s.dispChans).length = _
      rw [modifyAt_length]; exact hw2
    · show (modifyAt _ i0 s.cores).length = _
      rw [modifyAt_length]; exact hw3
    · intro i hi
      have hold := hcons i hi
      unfold pullCountFor CommCh.num_items_enqueued at hold
      show ((s.policy.queue_length_tracking).getD i []).length =
        ((modifyAt (fun c => { c with items := rest }) i0 s.dispChans).getD i
          ⟨0, [], []⟩).inFlight.length +
        ((modifyAt (fun c => { c with items := rest }) i0 s.dispChans).getD i
          ⟨0, [], []⟩).items.length +
        inServiceCount ((modifyAt (fun _ => .busy r (s.now + stime)) i0
          s.cores).getD i .idle) +
        ((s.pull.inFlight.filter (fun p => p.1.1 == i)).length +
          (s.pull.items.filter (fun p => p.1 == i)).length)
      by_cases hij : i = i0
      · subst hij
        rw [getD_modifyAt_self _ i s.dispChans ⟨0, [], []⟩ hi0]
        rw [getD_modifyAt_self _ i s.cores .idle hic]
        rw [hitems, hcore] at hold
        simp only [List.length_cons, inServiceCount] at hold ⊢
        omega
      · rw [getD_modifyAt_ne _ i0 i s.dispChans ⟨0, [], []⟩
          (fun hc => hij hc.symm)]
        rw [getD_modifyAt_ne _ i0 i s.cores .idle (fun hc => hij hc.symm)]
        omega
  | coreFinish i0 r f hcore hf hic =>
    refine ⟨⟨hw1, hw2, ?_⟩, ⟨?_, hp2⟩, ?_⟩
    · show (modifyAt _ i0 s.cores).length = _
      rw [modifyAt_length]; exact hw3
    · intro p hp
      unfold CommCh.put at hp
      simp only [List.mem_append, List.mem_singleton] at hp
      rcases hp with hp | rfl
      · exact hp1 p hp
      · show i0 < s.policy.num_queues
        omega
    · intro i hi
      have hold := hcons i hi
      unfold pullCountFor CommCh.num_items_enqueued at hold
      show ((s.policy.queue_length_tracking).getD i []).length =
        ((s.dispChans).getD i ⟨0, [], []⟩).inFlight.length +
        ((s.dispChans).getD i ⟨0, [], []⟩).items.length +
        inServiceCount ((modifyAt (fun _ => .idle) i0 s.cores).getD i .idle) +
        (((s.pull.put (i0, r) s.now).inFlight.filter
          (fun p => p.1.1 == i)).length +
          (s.pull.items.filter (fun p => p.1 == i)).length)
      unfold CommCh.put
      rw [filter_append_singleton_length (fun p => p.1.1 == i)
        s.pull.inFlight ((i0, r), s.now + s.pull.delay)]
      by_cases hij : i = i0
      · subst hij
        rw [getD_modifyAt_self _ i s.cores .idle hic]
        rw [hcore] at hold
        simp only [inServiceCount] at hold ⊢
        rw [if_pos (by simp)]
        omega
      · rw [getD_modifyAt_ne _ i0 i s.cores .idle (fun hc => hij hc.symm)]
        rw [if_neg (by simpa using fun hc : i0 = i => hij hc.symm)]
        omega
  | pullDeliver m t rest hch ht =>
    have hmem : (m, t) ∈ s.pull.inFlight := by
      rw [hch]; exact List.mem_cons_self _ _
    refine ⟨⟨hw1, hw2, hw3⟩, ⟨?_, ?_⟩, ?_⟩
    · intro p hp
      apply hp1
      rw [hch]
      exact List.mem_cons_of_mem _ hp
    · intro p hp
      simp only [List.mem_append, List.mem_singleton] at hp
      rcases hp with hp | hpe
      · exact hp2 p hp
      · rw [hpe]
        exact hp1 (m, t) hmem
    · intro i hi
      have hold := hcons i hi
      unfold pullCountFor CommCh.num_items_enqueued at hold
      show ((s.policy.queue_length_tracking).getD i []).length =
        ((s.dispChans).getD i ⟨0, [], []⟩).inFlight.length +
        ((s.dispChans).getD i ⟨0, [], []⟩).items.length +
        inServiceCount (s.cores.getD i .idle) +
        ((rest.filter (fun p => p.1.1 == i)).length +
          ((s.pull.items ++ [m]).filter (fun p => p.1 == i)).length)
      rw [filter_append_singleton_length (fun p => p.1 == i) s.pull.items m]
      rw [hch, filter_cons_length (fun p => p.1.1 == i) rest (m, t)] at hold
      by_cases hmi : m.1 = i
      · rw [if_pos (by simpa using hmi)] at hold ⊢
        omega
      · rw [if_neg (by simpa using hmi)] at hold ⊢
        omega
  | pullProcess i0 r rest hitems htrack =>
    have hi0q : i0 < s.policy.num_queues := by
      apply hp2 (i0, r)
      rw [hitems]
      exact List.mem_cons_self _ _
    have hi0tr : i0 < s.policy.queue_length_tracking.length := by omega
    refine ⟨⟨?_, hw2, hw3⟩, ⟨hp1, ?_⟩, ?_⟩
    · show (modifyAt _ i0 s.policy.queue_length_tracking).length = _
      rw [modifyAt_length]; exact hw1
    · intro p hp
      apply hp2
      rw [hitems]
      exact List.mem_cons_of_mem _ hp
    · intro i hi
      have hold := hcons i hi
      unfold pullCountFor CommCh.num_items_enqueued at hold
      show ((modifyAt List.dropLast i0 s.policy.queue_length_tracking).getD
          i []).length =
        ((s.dispChans).getD i ⟨0, [], []⟩).inFlight.length +
        ((s.dispChans).getD i ⟨0, [], []⟩).items.length +
        inServiceCount (s.cores.getD i .idle) +
        ((s.pull.inFlight.filter (fun p => p.1.1 == i)).length +
          (rest.filter (fun p => p.1 == i)).length)
      rw [hitems, filter_cons_length (fun p => p.1 == i) rest (i0, r)] at hold
      by_cases hij : i = i0
      · subst hij
        rw [getD_modifyAt_self List.dropLast i s.policy.queue_length_tracking
          [] hi0tr]
        rw [List.length_dropLast]
        rw [if_pos (by simp)] at hold
        have hne0 : (s.policy.queue_length_tracking.getD i []).length ≠ 0 := by
          intro hc
          exact htrack (List.eq_nil_of_length_eq_zero hc)
        omega
      · rw [getD_modifyAt_ne List.dropLast i0 i s.policy.queue_length_tracking
          [] (fun hc => hij hc.symm)]
        rw [if_neg (by simpa using fun hc : i0 = i => hij hc.symm)] at hold
        omega

theorem SysInv_reachable (C D L : Nat) (s : Sys)
    (h : SysReachable C D L s) : SysInv s := by
  unfold SysReachable at h
  induction h with
  | refl => exact SysInv_init C D L
  | tail hr hst ih => exact SysInv_step _ _ hst ih

/-- C2 counterexample: tracking equality fails at a reachable instant.
From the fresh 1-core JBSQ(1) system with channel latency 30, one
balancer dispatch step reaches a state where the dispatched request is
counted in the tracking deque but is still in flight inside the
channel's latency process: the deque length is 1 while the channel
store is empty and no request is in service. -/
theorem C2_claim_counterexample :
    SysReachable 1 1 30 c2AfterDispatch ∧ ¬claimTrackingEq c2AfterDispatch := by
  constructor
  · exact Relation.ReflTransGen.single
      (show Step c2Start c2AfterDispatch from
        Step.dispatch c2Start c2Req (by decide))
  · decide

/-- C2 (amended): in every reachable state of the timed dispatch
pipeline, each core's tracking-deque length equals the number of
requests dispatched to that core and not yet drained from the pull
channel: those in flight towards the private channel, those waiting in
it, the at-most-one in service, and the completion acknowledgements
still inside the pull channel.  (The claim's version — channel items
plus at most one in service — holds only when nothing is in flight on
either channel.) -/
theorem C2_tracking_conservation (C D L : Nat) (s : Sys)
    (h : SysReachable C D L s) : sysConservation s :=
  (SysInv_reachable C D L s h).2.2

theorem C2_tracking_conservation_witness :
    sysConservation (initSys 4 2 30) :=
  C2_tracking_conservation 4 2 30 (initSys 4 2 30) Relation.ReflTransGen.refl
